import Mathlib

set_option maxHeartbeats 1000000

namespace DocAnalysis

/-- Strings are modelled as lists of characters. -/
abbrev Str := List Char

/-- Python whitespace test, restricted to the ASCII whitespace characters
(space, tab, newline, vertical tab, form feed, carriage return).
Unicode whitespace beyond ASCII is outside the model. -/
def is_space (c : Char) : Bool :=
  c = ' ' || c = '\t' || c = '\n' || c = '\x0b' || c = '\x0c' || c = '\r'

/-- Python str.lower, ASCII fragment (Char.toLower lowers A-Z only). -/
def lower_str (s : Str) : Str := s.map Char.toLower

/-- Python str.lstrip() for whitespace. -/
def lstrip (s : Str) : Str := s.dropWhile (fun c => is_space c)

/-- Python str.rstrip() for whitespace. -/
def rstrip : Str → Str
  | [] => []
  | c :: cs =>
    match rstrip cs with
    | [] => if is_space c then [] else [c]
    | r => c :: r

/-- Python str.strip() for whitespace. -/
def strip (s : Str) : Str := rstrip (lstrip s)

/-- Python str.split() with no separator: split on whitespace runs, dropping
empty pieces.  The accumulator holds the word currently being read. -/
def words_aux : Str → Str → List Str
  | [], cur => if cur = [] then [] else [cur]
  | c :: cs, cur =>
    if is_space c then
      if cur = [] then words_aux cs [] else cur :: words_aux cs []
    else
      words_aux cs (cur ++ [c])

def words (s : Str) : List Str := words_aux s []

/-- Python " ".join(ws). -/
def join_sp : List Str → Str
  | [] => []
  | [w] => w
  | w :: ws => w ++ ' ' :: join_sp ws

/-- Python " ".join(s.split()): collapse whitespace runs to single spaces and
drop leading/trailing whitespace. -/
def join_split (s : Str) : Str := join_sp (words s)

/-- Python re.sub of a whitespace-run pattern by a single space: every maximal
whitespace run becomes one space character; the flag records whether the
previous character belonged to a run. -/
def resub_aux : Str → Bool → Str
  | [], _ => []
  | c :: cs, prev =>
    if is_space c then
      if prev then resub_aux cs true else ' ' :: resub_aux cs true
    else c :: resub_aux cs false

def resub_ws (s : Str) : Str := resub_aux s false

/-- Python dict built by repeated insertion: a later binding of the same key
overwrites an earlier one, exactly as in a dict comprehension, so a lookup
consults the later part of the insertion sequence first. -/
def dict_of {α : Type} [DecidableEq α] {β : Type} : List (α × β) → α → Option β
  | [], _ => none
  | kv :: t, x =>
    match dict_of t x with
    | some v => some v
    | none => if x = kv.1 then some kv.2 else none

/-- Python substring test: needle in haystack. -/
def has_sub (t s : Str) : Bool := decide (List.IsInfix t s)

def has_any (s : Str) (ts : List Str) : Bool := ts.any (fun t => has_sub t s)

/- ## intent.py -/

/-- intent._normalize_label: strip, lower, NFKD-decompose and drop combining
marks (the identity on the ASCII fragment modelled here), then collapse
whitespace runs to single spaces. -/
def normalize_label (s : Str) : Str := resub_ws (lower_str (strip s))

/-- intent.FUZZY_THRESHOLD = 0.84.  Scores are modelled as exact rationals;
the source computes with binary floats. -/
def FUZZY_THRESHOLD : ℚ := mkRat 84 100

/-- intent.ResolvedIntent. -/
structure ResolvedIntent where
  kind : Str
  builtin_key : Str := []
  inferred_type : Str := []
  anchors : List Str := []
  match_strategy : Str := []
  confidence : ℚ := 0
deriving DecidableEq

/-- intent._infer_type.  The static TYPE_BY_BUILTIN table is module data not
present under src/, so it is passed as the list of its items. -/
def infer_type (normalized : Str) (builtin_key : Str) (type_by_builtin : List (Str × Str)) : Str :=
  if builtin_key ≠ [] then
    (dict_of type_by_builtin builtin_key).getD "text".data
  else if has_sub "cnpj".data normalized then "cnpj".data
  else if has_sub "cpf".data normalized then "cpf".data
  else if has_any normalized ["barra".data, "linha".data, "barcode".data] then "barcode".data
  else if has_sub "vencimento".data normalized || has_sub "data".data normalized then "date".data
  else if has_any normalized ["valor".data, "total".data, "juros".data, "multa".data, "preco".data] then "money".data
  else if has_sub "cep".data normalized then "postal".data
  else if has_any normalized ["endereco".data, "logradouro".data, "rua".data, "avenida".data] then "address".data
  else if has_any normalized ["numero".data, "n ".data, "no ".data, "matricula".data, "cliente".data] then "id".data
  else "text".data

/-- intent._build_builtin_candidates.  The static SYNONYM_MAP is module data
not present under src/, so it is passed as the list of its items in dict
insertion order. -/
def build_builtin_candidates (builtin_fields synonym_map : List (Str × Str)) :
    List (Str × Str × Str) :=
  (builtin_fields.map (fun kv =>
    let key_norm := normalize_label kv.1
    let label_norm := normalize_label kv.2
    (if key_norm ≠ [] then [(key_norm, kv.1, "exact".data)] else []) ++
    (if label_norm ≠ [] then [(label_norm, kv.1, "label".data)] else []))).flatten
  ++ synonym_map.map (fun kv => (normalize_label kv.1, kv.2, "synonym".data))

/- ### difflib.SequenceMatcher(None, a, b).ratio()
Modelled over exact rationals.  isjunk is None, so the junk set is empty and
the two junk-extension loops of find_longest_match never run; the autojunk
popular-entry removal is modelled. -/

/-- Ascending list of positions of character c in b (difflib b2j entry). -/
def positions_list (b : Str) (c : Char) : List Nat :=
  (List.range b.length).filter (fun j => b.getD j ' ' = c)

/-- difflib b2j lookup with autojunk: for len(b) >= 200, entries occurring more
than len(b)/100 + 1 times are removed. -/
def b2j_positions (b : Str) (c : Char) : List Nat :=
  let ps := positions_list b c
  if 200 ≤ b.length ∧ b.length / 100 + 1 < ps.length then [] else ps

def assoc_get (l : List (Nat × Nat)) (k : Nat) : Nat :=
  match l.find? (fun kv => kv.1 = k) with
  | some kv => kv.2
  | none => 0

/-- Inner loop of find_longest_match for one row i: reads the previous row
j2len, builds the new row, and updates (besti, bestj, bestsize) on a strictly
greater run length. -/
def flm_inner (j2len : List (Nat × Nat)) (best : Nat × Nat × Nat)
    (i : Nat) (js : List Nat) : List (Nat × Nat) × (Nat × Nat × Nat) :=
  js.foldl (fun st j =>
    let prev := match j with
      | 0 => 0
      | Nat.succ j0 => assoc_get j2len j0
    let k := prev + 1
    let best2 := if st.2.2.2 < k then (i + 1 - k, j + 1 - k, k) else st.2
    ((j, k) :: st.1, best2)) ([], best)

/-- The dynamic-programming part of find_longest_match.  The inner j loop
skips positions below blo and stops at the first position at or beyond bhi
(the position lists are ascending). -/
def flm_outer (a b : Str) (alo ahi blo bhi : Nat) : Nat × Nat × Nat :=
  let res := (List.range' alo (ahi - alo)).foldl
    (fun st i =>
      let js := ((b2j_positions b (a.getD i ' ')).takeWhile (fun j => j < bhi)).filter
        (fun j => blo ≤ j)
      flm_inner st.1 st.2 i js)
    (([] : List (Nat × Nat)), (alo, blo, 0))
  res.2

/-- The non-junk leftward extension loop of find_longest_match; the fuel is an
upper bound on the number of steps (each step lowers besti by one). -/
def extend_left (a b : Str) (alo blo : Nat) : Nat → Nat × Nat × Nat → Nat × Nat × Nat
  | 0, st => st
  | Nat.succ fuel, (besti, bestj, bestsize) =>
    if alo < besti ∧ blo < bestj ∧ a.getD (besti - 1) ' ' = b.getD (bestj - 1) ' ' then
      extend_left a b alo blo fuel (besti - 1, bestj - 1, bestsize + 1)
    else (besti, bestj, bestsize)

/-- The non-junk rightward extension loop of find_longest_match. -/
def extend_right (a b : Str) (ahi bhi : Nat) : Nat → Nat × Nat × Nat → Nat × Nat × Nat
  | 0, st => st
  | Nat.succ fuel, (besti, bestj, bestsize) =>
    if besti + bestsize < ahi ∧ bestj + bestsize < bhi ∧
        a.getD (besti + bestsize) ' ' = b.getD (bestj + bestsize) ' ' then
      extend_right a b ahi bhi fuel (besti, bestj, bestsize + 1)
    else (besti, bestj, bestsize)

/-- difflib SequenceMatcher.find_longest_match with an empty junk set. -/
def find_longest_match (a b : Str) (alo ahi blo bhi : Nat) : Nat × Nat × Nat :=
  let st := flm_outer a b alo ahi blo bhi
  let st := extend_left a b alo blo st.1 st
  extend_right a b ahi bhi (ahi + bhi) st

/-- Total size of the matching blocks (the sum over get_matching_blocks of the
block sizes).  The fuel argument bounds the recursion depth; every call site
passes at least (ahi - alo) + (bhi - blo) + 1, which the strictly shrinking
ranges never exhaust. -/
def match_sum (a b : Str) : Nat → Nat → Nat → Nat → Nat → Nat
  | 0, _, _, _, _ => 0
  | Nat.succ fuel, alo, ahi, blo, bhi =>
    let m := find_longest_match a b alo ahi blo bhi
    if m.2.2 = 0 then 0
    else
      match_sum a b fuel alo m.1 blo m.2.1 + m.2.2 +
      match_sum a b fuel (m.1 + m.2.2) ahi (m.2.1 + m.2.2) bhi

/-- difflib SequenceMatcher(None, a, b).ratio(), as an exact rational. -/
def similarity (a b : Str) : ℚ :=
  let total := a.length + b.length
  if total = 0 then 1
  else mkRat (2 * (match_sum a b (total + 1) 0 a.length 0 b.length)) total

/-- The best-candidate fold of resolve_intent: state (best_key, best_score,
best_strategy), updated only on a strictly greater score. -/
def best_candidate (cands : List (Str × Str × Str)) (normalized : Str) : Str × ℚ × Str :=
  cands.foldl (fun best c =>
    let score := similarity normalized c.1
    if best.2.1 < score then (c.2.1, score, c.2.2) else best) ([], 0, [])

/-- intent._build_anchors deduplication loop: drop anchors whose normalized
form is empty or already seen. -/
def dedup_anchors : List Str → List Str → List Str
  | [], _ => []
  | a :: rest, seen =>
    let norm := normalize_label a
    if norm = [] ∨ norm ∈ seen then dedup_anchors rest seen
    else a :: dedup_anchors rest (norm :: seen)

/-- intent._build_anchors. -/
def build_anchors (label : Str) (builtin_key : Str)
    (builtin_fields synonym_map : List (Str × Str)) : List Str :=
  let anchors0 := if strip label ≠ [] then [strip label] else []
  let builtin_label :=
    (((builtin_fields.find? (fun kv => kv.1 = builtin_key)).map (fun kv => kv.2)).getD [])
  let anchors1 := anchors0 ++ (if builtin_label ≠ [] then [builtin_label] else [])
  let anchors2 := anchors1 ++ (synonym_map.filter (fun kv => kv.2 = builtin_key)).map
    (fun kv => kv.1)
  dedup_anchors anchors2 []

/-- intent.resolve_intent_with_llm: always returns None in the source. -/
def resolve_intent_with_llm (label : Str) : Option ResolvedIntent :=
  none

/-- intent.resolve_intent.  The exact lookup is the dict comprehension over
the candidate triples, so dict_of gives the insertion-order-with-overwrite
semantics of the source. -/
def resolve_intent (label : Str) (builtin_fields synonym_map type_by_builtin : List (Str × Str))
    (allow_llm : Bool) : ResolvedIntent :=
  let normalized := normalize_label label
  if normalized = [] then
    { kind := "custom".data, inferred_type := "text".data,
      match_strategy := "empty".data, confidence := 0 }
  else
    let candidates := build_builtin_candidates builtin_fields synonym_map
    match dict_of candidates normalized with
    | some ks =>
      { kind := "builtin".data, builtin_key := ks.1,
        inferred_type := infer_type normalized ks.1 type_by_builtin,
        anchors := build_anchors label ks.1 builtin_fields synonym_map,
        match_strategy := ks.2, confidence := 1 }
    | none =>
      let best := best_candidate candidates normalized
      if best.1 ≠ [] ∧ FUZZY_THRESHOLD ≤ best.2.1 then
        { kind := "builtin".data, builtin_key := best.1,
          inferred_type := infer_type normalized best.1 type_by_builtin,
          anchors := build_anchors label best.1 builtin_fields synonym_map,
          match_strategy := "fuzzy".data, confidence := best.2.1 }
      else
        match (if allow_llm then resolve_intent_with_llm label else none) with
        | some r => r
        | none =>
          { kind := "custom".data, builtin_key := [],
            inferred_type := infer_type normalized [] type_by_builtin,
            anchors := if strip label ≠ [] then [strip label] else [],
            match_strategy := "custom".data, confidence := 0 }

/- ## Lemmas about dict insertion semantics -/

/-- A Python dict built by insertion maps a key to the value of the LAST pair
with that key in the insertion sequence. -/
theorem dict_of_eq_getLast {α : Type} [DecidableEq α] {β : Type} (l : List (α × β)) (x : α) :
    dict_of l x = ((l.filter (fun kv => kv.1 = x)).getLast?).map Prod.snd := by
  induction l with
  | nil => simp [dict_of]
  | cons kv t ih =>
    show (match dict_of t x with
          | some v => some v
          | none => if x = kv.1 then some kv.2 else none) = _
    by_cases hx : kv.1 = x
    · cases ht : t.filter (fun kv2 => kv2.1 = x) with
      | nil =>
        have ihn : dict_of t x = none := by rw [ih, ht]; rfl
        rw [List.filter_cons, ihn, ht, if_pos (show x = kv.1 from hx.symm),
          if_pos (show decide (kv.1 = x) = true by simp [hx])]
        rfl
      | cons h2 t2 =>
        have hsome : dict_of t x = some (((h2 :: t2).getLast (by simp)).2) := by
          rw [ih, ht, List.getLast?_eq_getLast _ (by simp)]
          rfl
        rw [List.filter_cons, hsome, ht,
          if_pos (show decide (kv.1 = x) = true by simp [hx]),
          List.getLast?_cons_cons, List.getLast?_eq_getLast _ (by simp)]
        rfl
    · rw [List.filter_cons, if_neg (show ¬ (decide (kv.1 = x) = true) by simp [hx])]
      rw [← ih]
      have hx2 : ¬ x = kv.1 := fun h => hx h.symm
      cases hdx : dict_of t x
      · simp [hx2]
      · simp

/- ## Claim C1 -/

/-- Claim C1, amended: in the exact-lookup step, when several candidates share
the same normalized string, the candidate generated LAST in insertion order
(synonyms after labels after keys) determines the returned builtin key and
match strategy, because the dict comprehension lets later entries overwrite
earlier ones. -/
theorem c1_exact_lookup_last_wins (label : Str) (bf sm tb : List (Str × Str)) (al : Bool)
    (c : Str × Str × Str)
    (hne : normalize_label label ≠ [])
    (hlast : ((build_builtin_candidates bf sm).filter
      (fun cand => cand.1 = normalize_label label)).getLast? = some c) :
    resolve_intent label bf sm tb al =
      { kind := "builtin".data, builtin_key := c.2.1,
        inferred_type := infer_type (normalize_label label) c.2.1 tb,
        anchors := build_anchors label c.2.1 bf sm,
        match_strategy := c.2.2, confidence := 1 } := by
  have hdict : dict_of (build_builtin_candidates bf sm) (normalize_label label) = some c.2 := by
    rw [dict_of_eq_getLast, hlast]
    rfl
  unfold resolve_intent
  simp only [hne, if_false, hdict, ne_eq]

/-- Claim C1 counterexample: with builtin fields [("foo","x"), ("bar","foo")]
and label "foo", the first candidate in insertion order whose normalized form
is "foo" maps to key "foo" with strategy "exact", but resolve_intent returns
builtin_key "bar" (strategy "label"), so the first-found candidate does not
win. -/
theorem c1_counterexample :
    ((build_builtin_candidates [("foo".data, "x".data), ("bar".data, "foo".data)] []).find?
        (fun cand => cand.1 = normalize_label "foo".data)) =
      some ("foo".data, "foo".data, "exact".data) ∧
    (resolve_intent "foo".data [("foo".data, "x".data), ("bar".data, "foo".data)] [] [] false).builtin_key
      ≠ "foo".data := by
  decide

theorem c1_witness :
    normalize_label "foo".data ≠ [] ∧
    ((build_builtin_candidates [("foo".data, "x".data), ("bar".data, "foo".data)] []).filter
        (fun cand => cand.1 = normalize_label "foo".data)).getLast? =
      some ("foo".data, "bar".data, "label".data) ∧
    resolve_intent "foo".data [("foo".data, "x".data), ("bar".data, "foo".data)] [] [] false =
      { kind := "builtin".data, builtin_key := "bar".data, inferred_type := "text".data,
        anchors := ["foo".data], match_strategy := "label".data, confidence := 1 } :=
  ⟨by decide, by decide,
    (c1_exact_lookup_last_wins "foo".data [("foo".data, "x".data), ("bar".data, "foo".data)] [] []
      false ("foo".data, "bar".data, "label".data) (by decide) (by decide)).trans (by decide)⟩

/- ## Claim C6 -/

/-- Claim C6, amended: with no exact match, if the tracked best fuzzy score is
at least 0.84 AND the builtin key of the best-scoring candidate is non-empty, the
result is kind builtin with match_strategy fuzzy and confidence equal to the
best score; if the best score is below 0.84 (external resolution off), the
result is kind custom with confidence 0.  The amendment adds the non-empty
key condition: a candidate row whose builtin key is the empty string blocks
the fuzzy branch even at a score at or above the threshold. -/
theorem c6_fuzzy_threshold (label : Str) (bf sm tb : List (Str × Str))
    (hne : normalize_label label ≠ [])
    (hnox : dict_of (build_builtin_candidates bf sm) (normalize_label label) = none) :
    (((best_candidate (build_builtin_candidates bf sm) (normalize_label label)).1 ≠ [] ∧
        FUZZY_THRESHOLD ≤
          (best_candidate (build_builtin_candidates bf sm) (normalize_label label)).2.1) →
      resolve_intent label bf sm tb false =
        { kind := "builtin".data,
          builtin_key := (best_candidate (build_builtin_candidates bf sm)
            (normalize_label label)).1,
          inferred_type := infer_type (normalize_label label)
            (best_candidate (build_builtin_candidates bf sm) (normalize_label label)).1 tb,
          anchors := build_anchors label
            (best_candidate (build_builtin_candidates bf sm) (normalize_label label)).1 bf sm,
          match_strategy := "fuzzy".data,
          confidence := (best_candidate (build_builtin_candidates bf sm)
            (normalize_label label)).2.1 }) ∧
    ((best_candidate (build_builtin_candidates bf sm) (normalize_label label)).2.1 <
        FUZZY_THRESHOLD →
      resolve_intent label bf sm tb false =
        { kind := "custom".data, builtin_key := [],
          inferred_type := infer_type (normalize_label label) [] tb,
          anchors := if strip label ≠ [] then [strip label] else [],
          match_strategy := "custom".data, confidence := 0 }) := by
  constructor
  · intro hgt
    unfold resolve_intent
    simp only [hne, if_false, hnox, ne_eq]
    rw [if_pos]
    exact hgt
  · intro hlt
    unfold resolve_intent
    simp only [hne, if_false, hnox, ne_eq]
    rw [if_neg (fun hc => absurd hc.2 (not_le.mpr hlt))]
    rfl

/-- Claim C6 counterexample: label "hello1" against the single builtin field
("", "hello") yields best fuzzy score 10/11 which is at least 0.84, there is
no exact match, yet resolve_intent returns kind custom with confidence 0,
because the builtin key of the best candidate is empty. -/
theorem c6_counterexample :
    normalize_label "hello1".data ≠ [] ∧
    dict_of (build_builtin_candidates [("".data, "hello".data)] [])
      (normalize_label "hello1".data) = none ∧
    FUZZY_THRESHOLD ≤ (best_candidate (build_builtin_candidates [("".data, "hello".data)] [])
      (normalize_label "hello1".data)).2.1 ∧
    (resolve_intent "hello1".data [("".data, "hello".data)] [] [] false).kind = "custom".data ∧
    (resolve_intent "hello1".data [("".data, "hello".data)] [] [] false).confidence = 0 := by
  decide

theorem c6_witness :
    resolve_intent "hello12".data [("hello1".data, "x".data)] [] [] false =
      { kind := "builtin".data, builtin_key := "hello1".data, inferred_type := "text".data,
        anchors := ["hello12".data, "x".data], match_strategy := "fuzzy".data,
        confidence := mkRat 12 13 } ∧
    resolve_intent "hello1".data [("hello2".data, "x".data)] [] [] false =
      { kind := "custom".data, builtin_key := [], inferred_type := "text".data,
        anchors := ["hello1".data], match_strategy := "custom".data, confidence := 0 } :=
  ⟨((c6_fuzzy_threshold "hello12".data [("hello1".data, "x".data)] [] []
      (by decide) (by decide)).1 (by decide)).trans (by decide),
   ((c6_fuzzy_threshold "hello1".data [("hello2".data, "x".data)] [] []
      (by decide) (by decide)).2 (by decide)).trans (by decide)⟩

/- ## Python numeric literal parsing (shared by processing.py and ai_extraction.py) -/

def is_digit (c : Char) : Bool := '0' ≤ c && c ≤ '9'

def digits_val (s : Str) : Nat := s.foldl (fun a c => 10 * a + (c.toNat - '0'.toNat)) 0

/-- Optional leading sign: returns (negative, rest). -/
def parse_sign : Str → Bool × Str
  | '+' :: r => (false, r)
  | '-' :: r => (true, r)
  | s => (false, s)

/-- A finite decimal value: mant times ten to the exp.  This models a finite
decimal.Decimal as (sign and coefficient, exponent); NaN and infinities are
outside the model. -/
structure Dec where
  mant : Int
  exp : Int
deriving DecidableEq

/-- The finite-numeric-literal grammar shared by the decimal.Decimal
constructor and float(): optional sign, digits with optional fractional part
(at least one digit overall), optional exponent part.  The special value
forms of the Decimal constructor live in parse_dec_value below; underscore
grouping is outside the model. -/
def parse_dec_string (s : Str) : Option Dec :=
  let sr := parse_sign s
  let ip := sr.2.takeWhile is_digit
  let r2 := sr.2.dropWhile is_digit
  let fr : Str × Str :=
    match r2 with
    | '.' :: r3 => (r3.takeWhile is_digit, r3.dropWhile is_digit)
    | _ => ([], r2)
  if ip = [] ∧ fr.1 = [] then none
  else
    let coeff : Int := (digits_val (ip ++ fr.1) : Int)
    let mant : Int := if sr.1 then -coeff else coeff
    match fr.2 with
    | [] => some ⟨mant, -(fr.1.length : Int)⟩
    | e :: r5 =>
      if e = 'e' ∨ e = 'E' then
        let er := parse_sign r5
        let ed := er.2.takeWhile is_digit
        if ed = [] ∨ er.2.dropWhile is_digit ≠ [] then none
        else
          let ev : Int := if er.1 then -(digits_val ed : Int) else (digits_val ed : Int)
          some ⟨mant, ev - (fr.1.length : Int)⟩
      else none

/-- Number of decimal digits of the coefficient. -/
def digit_count (n : Nat) : Nat := (Nat.toDigits 10 n).length

/-- Round n / d (with d positive) to the nearest integer, ties to even
(the default decimal rounding mode ROUND_HALF_EVEN). -/
def round_half_even (n d : Int) : Int :=
  let q := Int.fdiv n d
  let r := n - q * d
  if 2 * r < d then q
  else if d < 2 * r then q + 1
  else if q % 2 = 0 then q else q + 1

/-- Decimal.quantize(Decimal(0.01 literal)) under the default context:
rescale to exponent -2 with ROUND_HALF_EVEN; signal InvalidOperation (modelled
as none) when the resulting coefficient exceeds the default 28-digit
precision. -/
def quantize2 (d : Dec) : Option Dec :=
  let m : Int :=
    if -2 ≤ d.exp then d.mant * (10 : Int) ^ (d.exp + 2).toNat
    else round_half_even d.mant ((10 : Int) ^ (-(d.exp + 2)).toNat)
  if 28 < digit_count m.natAbs then none else some ⟨m, -2⟩

/-- Decimal(str(float value)): the float is modelled as an exact rational and
str as its exact finite decimal expansion when one of at most 60 fractional
digits exists (every actual binary float has one); Python prints the shortest
round-tripping form instead, which quantize2 then rounds identically except
in pathological cases outside the dyadic rationals. -/
def dec_of_rat (q : ℚ) : Dec :=
  match (List.range 60).find? (fun k => (q.num * (10 : Int) ^ k) % (q.den : Int) = 0) with
  | some k => ⟨q.num * (10 : Int) ^ k / (q.den : Int), -(k : Int)⟩
  | none => ⟨0, 0⟩

/- ## processing.py -/

/-- A value of the decimal.Decimal type: a finite decimal, a quiet or
signaling NaN (sign plus digit payload), or an infinity. -/
inductive DecV where
  | finite (d : Dec)
  | qnan (neg : Bool) (payload : Nat)
  | snan (neg : Bool) (payload : Nat)
  | dinf (neg : Bool)
deriving DecidableEq

/-- The decimal.Decimal constructor over strings: after an optional sign, the
case-insensitive special forms Inf / Infinity, NaN and sNaN with an optional
digit payload (leading zeros of the payload are not significant, so it is
kept as its numeric value), otherwise a finite numeric literal. -/
def parse_dec_value (s : Str) : Option DecV :=
  let sr := parse_sign s
  let low := lower_str sr.2
  if low = "inf".data ∨ low = "infinity".data then some (.dinf sr.1)
  else if low.take 4 = "snan".data ∧ (low.drop 4).all is_digit then
    some (.snan sr.1 (digits_val (low.drop 4)))
  else if low.take 3 = "nan".data ∧ (low.drop 3).all is_digit then
    some (.qnan sr.1 (digits_val (low.drop 3)))
  else (parse_dec_string s).map .finite

/-- Decimal.quantize against the 0.01 literal under the default context, on a
full decimal value: quiet NaNs propagate without signalling, keeping the sign
and the last 28 payload digits; signaling NaNs and infinities signal
InvalidOperation (modelled as none, which _parse_decimal catches). -/
def quantizeV : DecV → Option DecV
  | .finite d => (quantize2 d).map .finite
  | .qnan neg payload => some (.qnan neg (payload % 10 ^ 28))
  | .snan _ _ => none
  | .dinf _ => none

/-- The value universe of processing._parse_decimal: None, an already-built
(finite) Decimal, an int, a (finite) float or a string.  Booleans and
non-finite floats are outside the model; NaN and Infinity STRINGS are inside
it, through parse_dec_value. -/
inductive PVal where
  | pnone
  | pdec (d : Dec)
  | pint (n : Int)
  | pfloat (q : ℚ)
  | pstr (s : Str)
deriving DecidableEq

/-- processing._parse_decimal.  An input that is already a Decimal is returned
as is; ints and floats go through Decimal(str(value)).quantize; strings get
the dual-locale comma/period rewriting and then Decimal(raw).quantize; an
InvalidOperation raised by either step yields None, while a quiet NaN string
survives quantize and is returned as a NaN decimal. -/
def parse_decimal (value : PVal) : Option DecV :=
  match value with
  | .pnone => none
  | .pdec d => some (.finite d)
  | .pint n => quantizeV (.finite ⟨n, 0⟩)
  | .pfloat q => quantizeV (.finite (dec_of_rat q))
  | .pstr s =>
    let raw := strip s
    if raw = [] then none
    else
      let raw2 :=
        if ',' ∈ raw ∧ '.' ∈ raw then
          (raw.filter (fun c => c ≠ '.')).map (fun c => if c = ',' then '.' else c)
        else if ',' ∈ raw then raw.map (fun c => if c = ',' then '.' else c)
        else raw
      match parse_dec_value raw2 with
      | some v => quantizeV v
      | none => none

/- ## Claim C2 -/

theorem quantize2_exp {d : Dec} {r : Dec} (h : quantize2 d = some r) : r.exp = -2 := by
  unfold quantize2 at h
  by_cases hc : 28 < digit_count (if -2 ≤ d.exp then d.mant * (10 : Int) ^ (d.exp + 2).toNat
      else round_half_even d.mant ((10 : Int) ^ (-(d.exp + 2)).toNat)).natAbs
  · rw [if_pos hc] at h
    exact absurd h (by simp)
  · rw [if_neg hc] at h
    cases h
    rfl

theorem quantizeV_finite (d : Dec) (r : DecV) (h : quantizeV (.finite d) = some r) :
    ∃ d2, r = DecV.finite d2 ∧ d2.exp = -2 := by
  simp only [quantizeV] at h
  cases hq : quantize2 d with
  | none =>
    rw [hq] at h
    exact absurd h (by simp)
  | some d2 =>
    rw [hq] at h
    have h2 : some (DecV.finite d2) = some r := h
    cases h2
    exact ⟨d2, rfl, quantize2_exp hq⟩

/-- Claim C2, amended: for every input value the money parser returns None,
or the already-Decimal input unchanged (with its original exponent), or a
quiet NaN decimal (only for string inputs, whose NaN forms construct a quiet
NaN that quantize propagates without signalling), or a finite decimal
quantized to exponent -2 (two decimal places). -/
theorem c2_parse_decimal_quantized (v : PVal) (r : DecV) (h : parse_decimal v = some r) :
    (∃ d, r = DecV.finite d ∧ (d.exp = -2 ∨ v = PVal.pdec d)) ∨
    ((∃ neg payload, r = DecV.qnan neg payload) ∧ ∃ s, v = PVal.pstr s) := by
  cases v with
  | pnone => exact absurd h (by simp [parse_decimal])
  | pdec d0 =>
    simp only [parse_decimal] at h
    cases h
    exact Or.inl ⟨d0, rfl, Or.inr rfl⟩
  | pint n =>
    simp only [parse_decimal] at h
    obtain ⟨d2, rfl, hexp⟩ := quantizeV_finite _ _ h
    exact Or.inl ⟨d2, rfl, Or.inl hexp⟩
  | pfloat q =>
    simp only [parse_decimal] at h
    obtain ⟨d2, rfl, hexp⟩ := quantizeV_finite _ _ h
    exact Or.inl ⟨d2, rfl, Or.inl hexp⟩
  | pstr s =>
    simp only [parse_decimal] at h
    split at h
    · exact absurd h (by simp)
    · split at h
      · rename_i v2 hv2
        cases v2 with
        | finite d =>
          obtain ⟨d2, rfl, hexp⟩ := quantizeV_finite _ _ h
          exact Or.inl ⟨d2, rfl, Or.inl hexp⟩
        | qnan neg payload =>
          have h2 : some (DecV.qnan neg (payload % 10 ^ 28)) = some r := h
          cases h2
          exact Or.inr ⟨⟨neg, payload % 10 ^ 28, rfl⟩, s, rfl⟩
        | snan neg payload => exact absurd h (by simp [quantizeV])
        | dinf neg => exact absurd h (by simp [quantizeV])
      · exact absurd h (by simp)

/-- Claim C2 counterexample: the already-a-Decimal input 1.234 (coefficient
1234, exponent -3) is accepted and returned with three decimal places, not
re-quantized to two.  (The string "nan" is a second violation: it is accepted
and comes back as the unquantized Decimal NaN, see the witness.) -/
theorem c2_counterexample :
    parse_decimal (PVal.pdec ⟨1234, -3⟩) = some (DecV.finite ⟨1234, -3⟩) ∧
    (⟨1234, -3⟩ : Dec).exp ≠ -2 := by
  decide

theorem c2_witness :
    parse_decimal (PVal.pstr "10,00".data) = some (DecV.finite ⟨1000, -2⟩) ∧
    ((∃ d, DecV.finite (⟨1000, -2⟩ : Dec) = DecV.finite d ∧
        (d.exp = -2 ∨ PVal.pstr "10,00".data = PVal.pdec d)) ∨
      ((∃ neg payload, DecV.finite (⟨1000, -2⟩ : Dec) = DecV.qnan neg payload) ∧
        ∃ s, PVal.pstr "10,00".data = PVal.pstr s)) ∧
    parse_decimal (PVal.pstr "nan".data) = some (DecV.qnan false 0) ∧
    ((∃ d, DecV.qnan false 0 = DecV.finite d ∧
        (d.exp = -2 ∨ PVal.pstr "nan".data = PVal.pdec d)) ∨
      ((∃ neg payload, DecV.qnan false 0 = DecV.qnan neg payload) ∧
        ∃ s, PVal.pstr "nan".data = PVal.pstr s)) :=
  ⟨by decide,
   c2_parse_decimal_quantized (PVal.pstr "10,00".data) (DecV.finite ⟨1000, -2⟩) (by decide),
   by decide,
   c2_parse_decimal_quantized (PVal.pstr "nan".data) (DecV.qnan false 0) (by decide)⟩

/- ## ai_extraction.py -/

/-- A Python float: finite values are modelled as exact rationals (IEEE
rounding is not modelled); the infinities and NaN are explicit because the
normalizer behaviour on them is observable. -/
inductive PyFloat where
  | finite (q : ℚ)
  | inf
  | ninf
  | nan
deriving DecidableEq

/-- IEEE comparison: NaN is incomparable. -/
def pf_lt : PyFloat → PyFloat → Bool
  | .finite a, .finite b => a < b
  | .finite _, .inf => true
  | .ninf, .finite _ => true
  | .ninf, .inf => true
  | _, _ => false

/-- JSON-like Python values reaching normalize_ai_payload. -/
inductive Py where
  | pynone
  | pybool (b : Bool)
  | pyint (n : Int)
  | pyfloat (f : PyFloat)
  | pystr (s : Str)
  | pylist (xs : List Py)
  | pydict (kvs : List (Str × Py))

/-- The Python exceptions relevant here: the normalizer catches TypeError and
ValueError but lets OverflowError escape. -/
inductive PyErr where
  | typeErr
  | valueErr
  | overflowErr
deriving DecidableEq

def int_repr (n : Int) : Str := (toString n).data

def rat_of_dec (d : Dec) : ℚ :=
  if 0 ≤ d.exp then mkRat (d.mant * (10 : Int) ^ d.exp.toNat) 1
  else mkRat d.mant ((10 : Nat) ^ (-d.exp).toNat)

/-- Fractional digits of a rational in [0, 1), most significant first, up to
the fuel bound. -/
def frac_digits : ℚ → Nat → Str
  | _, 0 => []
  | q, Nat.succ k =>
    let q10 := q * 10
    let d := (Int.floor q10).toNat
    Char.ofNat ('0'.toNat + d) :: frac_digits (q10 - (d : ℚ)) k

/-- Python repr of a finite float, approximated by the exact decimal expansion
up to 17 fractional digits with trailing zeros dropped (Python prints the
shortest round-tripping form); no theorem below depends on this rendering. -/
def rat_repr (q : ℚ) : Str :=
  let sign : Str := if q < 0 then ['-'] else []
  let aq : ℚ := if q < 0 then -q else q
  let ip : Nat := (Int.floor aq).toNat
  let fr : ℚ := aq - (ip : ℚ)
  let ds := rstrip ((frac_digits fr 17).map (fun c => if c = '0' then ' ' else c))
  let ds := ds.map (fun c => if c = ' ' then '0' else c)
  sign ++ (toString ip).data ++ '.' :: (if ds = [] then ['0'] else ds)

def float_repr : PyFloat → Str
  | .finite q => rat_repr q
  | .inf => "inf".data
  | .ninf => "-inf".data
  | .nan => "nan".data

/-- Python repr of a string: single quotes preferred, double quotes when the
text contains a single quote but no double quote; backslashes and the quote
character are escaped.  Control-character escapes are outside the model; no
theorem below depends on this rendering. -/
def str_repr (s : Str) : Str :=
  let quote : Char := if '\x27' ∈ s ∧ ¬ '"' ∈ s then '"' else '\x27'
  let body := s.map (fun c => [c]) |>.map (fun p =>
    if p = ['\\'] then ['\\', '\\'] else if p = [quote] then ['\\', quote] else p)
  quote :: body.flatten ++ [quote]

mutual

/-- Python repr of a JSON-like value (str of a container shows its elements
through repr). -/
def py_repr_of : Py → Str
  | .pynone => "None".data
  | .pybool true => "True".data
  | .pybool false => "False".data
  | .pyint n => int_repr n
  | .pyfloat f => float_repr f
  | .pystr s => str_repr s
  | .pylist xs => '[' :: py_repr_list xs ++ [']']
  | .pydict kvs => '\x7b' :: py_repr_kvs kvs ++ ['\x7d']

def py_repr_list : List Py → Str
  | [] => []
  | [x] => py_repr_of x
  | x :: xs => py_repr_of x ++ ',' :: ' ' :: py_repr_list xs

def py_repr_kvs : List (Str × Py) → Str
  | [] => []
  | [kv] => str_repr kv.1 ++ ':' :: ' ' :: py_repr_of kv.2
  | kv :: kvs => str_repr kv.1 ++ ':' :: ' ' :: py_repr_of kv.2 ++ ',' :: ' ' :: py_repr_kvs kvs

end

/-- Python str(value): the identity on strings, repr on everything else. -/
def py_str_of : Py → Str
  | .pystr s => s
  | v => py_repr_of v

/-- Python dict get with default None (a stored None and an absent key are
indistinguishable through .get, which is all the source uses). -/
def dget (kvs : List (Str × Py)) (k : Str) : Py :=
  (dict_of kvs k).getD .pynone

/-- ai_extraction isinstance(value, dict)-guarded access (also
ai_filters._as_dict). -/
def as_dict : Py → List (Str × Py)
  | .pydict kvs => kvs
  | _ => []

/-- ai_filters._as_list and the isinstance(value, list) guards. -/
def as_list : Py → List Py
  | .pylist xs => xs
  | _ => []

/-- ai_extraction._clean_text (ai_filters._clean_text is textually identical
except for its default max_len, which every call site overrides): str(value),
whitespace-collapse, strip, then truncate to max_len (0 means no limit) with
a trailing rstrip. -/
def clean_text (v : Py) (max_len : Nat) : Str :=
  match v with
  | .pynone => []
  | _ =>
    let cleaned := strip (join_split (py_str_of v))
    if max_len ≠ 0 ∧ max_len < cleaned.length then rstrip (cleaned.take max_len)
    else cleaned

/-- ai_extraction._clean_optional_text. -/
def clean_optional_text (v : Py) (max_len : Nat) : Option Str :=
  let c := clean_text v max_len
  if c = [] then none else some c

/-- Python int literal in a string (int(str)): optional sign and digits;
underscore grouping and non-ASCII digits are outside the model. -/
def parse_int_string (s : Str) : Option Int :=
  let sr := parse_sign s
  let ds := sr.2.takeWhile is_digit
  if ds = [] ∨ sr.2.dropWhile is_digit ≠ [] then none
  else some (if sr.1 then -(digits_val ds : Int) else (digits_val ds : Int))

/-- Python int(value): bool and int pass through, finite floats truncate
toward zero, NaN raises ValueError, infinities raise OverflowError, strings
are parsed as integer literals after stripping whitespace (ValueError on
failure), anything else raises TypeError. -/
def py_int_of : Py → Except PyErr Int
  | .pybool b => .ok (if b then 1 else 0)
  | .pyint n => .ok n
  | .pyfloat (.finite q) => .ok (q.num / (q.den : Int))
  | .pyfloat .nan => .error .valueErr
  | .pyfloat .inf => .error .overflowErr
  | .pyfloat .ninf => .error .overflowErr
  | .pystr s =>
    match parse_int_string (strip s) with
    | some n => .ok n
    | none => .error .valueErr
  | _ => .error .typeErr

/-- ai_extraction._clean_int: None passes through as None; int(value) with
TypeError and ValueError caught (other exceptions escape); out-of-range
results become None, in-range results are kept. -/
def clean_int (v : Py) (min_value max_value : Int) : Except PyErr (Option Int) :=
  match v with
  | .pynone => .ok none
  | _ =>
    match py_int_of v with
    | .error .typeErr => .ok none
    | .error .valueErr => .ok none
    | .error e => .error e
    | .ok parsed =>
      if parsed < min_value ∨ max_value < parsed then .ok none else .ok (some parsed)

/-- Python float literal in a string: sign, then inf / infinity / nan
(case-insensitive) or a decimal literal taken as an exact rational.
Overflow of large literals to the IEEE infinity is not modelled (the only
consumer clamps to [0, 1], which agrees on such values). -/
def parse_float_string (s : Str) : Option PyFloat :=
  let sr := parse_sign s
  let low := lower_str sr.2
  if low = "inf".data ∨ low = "infinity".data then some (if sr.1 then .ninf else .inf)
  else if low = "nan".data then some .nan
  else
    match parse_dec_string s with
    | some d => some (.finite (rat_of_dec d))
    | none => none

/-- Python float(value): bool and finite values convert, huge ints raise
OverflowError (threshold modelled as 2 to the 1024), strings parse as float
literals after stripping whitespace, anything else raises TypeError. -/
def py_float_of : Py → Except PyErr PyFloat
  | .pybool b => .ok (.finite (if b then 1 else 0))
  | .pyint n => if (2 : Nat) ^ 1024 ≤ n.natAbs then .error .overflowErr else .ok (.finite (mkRat n 1))
  | .pyfloat f => .ok f
  | .pystr s =>
    match parse_float_string (strip s) with
    | some f => .ok f
    | none => .error .valueErr
  | _ => .error .typeErr

/-- ai_extraction._clean_float: float(value) with TypeError and ValueError
caught to 0.0 (other exceptions escape); negatives clamp to 0, values above 1
clamp to 1; NaN satisfies neither comparison and passes through. -/
def clean_float (v : Py) : Except PyErr PyFloat :=
  match py_float_of v with
  | .error .typeErr => .ok (.finite 0)
  | .error .valueErr => .ok (.finite 0)
  | .error e => .error e
  | .ok parsed =>
    if pf_lt parsed (.finite 0) then .ok (.finite 0)
    else if pf_lt (.finite 1) parsed then .ok (.finite 1)
    else .ok parsed

/-- ai_extraction._clean_list main loop: clean each entry, drop empties,
dedup case-insensitively on the cleaned text, stop once max_items collected. -/
def clean_list_go (max_items max_len : Nat) : List Py → List Str → List Str → List Str
  | [], _, acc => acc
  | raw :: rest, seen, acc =>
    let text := clean_text raw max_len
    if text = [] then clean_list_go max_items max_len rest seen acc
    else
      let lowered := lower_str text
      if lowered ∈ seen then clean_list_go max_items max_len rest seen acc
      else
        let acc2 := acc ++ [text]
        if max_items ≤ acc2.length then acc2
        else clean_list_go max_items max_len rest (lowered :: seen) acc2

/-- ai_extraction._clean_list. -/
def clean_list (v : Py) (max_items max_len : Nat) : List Str :=
  match v with
  | .pylist xs => clean_list_go max_items max_len xs [] []
  | _ => []

def DOC_TYPE_CHOICES : List Str :=
  ["curriculo".data, "contrato".data, "nota_fiscal".data, "boleto".data,
   "fatura".data, "recibo".data, "comprovante".data, "outro".data]

def SENIORITY_CHOICES : List Str :=
  ["junior".data, "pleno".data, "senior".data, "lead".data, "unknown".data]

def SKILL_LEVEL_CHOICES : List Str :=
  ["unknown".data, "basic".data, "intermediate".data, "advanced".data]

structure Skill where
  name : Str
  level : Str
  evidence : Str
deriving DecidableEq

structure Education where
  degree : Option Str
  institution : Option Str
  evidence : Str
deriving DecidableEq

structure KeywordEvidence where
  term : Str
  evidence : Str
deriving DecidableEq

structure Person where
  name : Option Str
  emails : List Str
  phones : List Str
  location : Option Str
  age_estimate_years : Option Int
  age_evidence : Option Str
deriving DecidableEq

structure Experience where
  years_estimate : Option Int
  years_evidence : Option Str
  seniority : Str
  roles : List Str
  companies : List Str
deriving DecidableEq

/-- The strict output schema of the Payload Normalizer (the dict literal
returned by normalize_ai_payload, as a record). -/
structure NormalizedExtraction where
  doc_type : Str
  person : Person
  experience : Experience
  skills : List Skill
  education : List Education
  keywords_evidence : List KeywordEvidence
  confidence_overall : PyFloat
deriving DecidableEq

/-- The level computation of _normalize_skill: clean, lower, default to
unknown when empty or outside the allow-set. -/
def skill_level_of (v : Py) : Str :=
  let level0 := lower_str (clean_text v 20)
  let level1 := if level0 = [] then "unknown".data else level0
  if level1 ∈ SKILL_LEVEL_CHOICES then level1 else "unknown".data

/-- ai_extraction._normalize_skill. -/
def normalize_skill (raw : Py) : Option Skill :=
  match raw with
  | .pydict kvs =>
    let name := clean_text (dget kvs "name".data) 120
    if name = [] then none
    else
      let level := skill_level_of (dget kvs "level".data)
      let evidence := clean_text (dget kvs "evidence".data) 220
      if evidence = [] then none
      else some ⟨name, level, evidence⟩
  | _ => none

/-- ai_extraction._normalize_education. -/
def normalize_education (raw : Py) : Option Education :=
  match raw with
  | .pydict kvs =>
    let degree := clean_optional_text (dget kvs "degree".data) 160
    let institution := clean_optional_text (dget kvs "institution".data) 160
    let evidence := clean_text (dget kvs "evidence".data) 220
    if evidence = [] then none
    else some ⟨degree, institution, evidence⟩
  | _ => none

/-- ai_extraction._normalize_keyword_evidence. -/
def normalize_keyword_evidence (raw : Py) : Option KeywordEvidence :=
  match raw with
  | .pydict kvs =>
    let term := clean_text (dget kvs "term".data) 120
    let evidence := clean_text (dget kvs "evidence".data) 220
    if term = [] ∨ evidence = [] then none
    else some ⟨term, evidence⟩
  | _ => none

/-- The for-append-break pattern of the three composite loops of
normalize_ai_payload: append each successfully normalized item, stop as soon
as the accumulator reaches the cap. -/
def collect_capped {α : Type} (f : Py → Option α) (cap : Nat) : List Py → List α → List α
  | [], acc => acc
  | item :: rest, acc =>
    let acc2 :=
      match f item with
      | some x => acc ++ [x]
      | none => acc
    if cap ≤ acc2.length then acc2 else collect_capped f cap rest acc2

/-- The doc_type computation of normalize_ai_payload. -/
def doc_type_of (v : Py) : Str :=
  let t0 := lower_str (clean_text v 40)
  let t1 := if t0 = [] then "outro".data else t0
  if t1 ∈ DOC_TYPE_CHOICES then t1 else "outro".data

/-- The seniority computation of normalize_ai_payload. -/
def seniority_of (v : Py) : Str :=
  let t0 := lower_str (clean_text v 20)
  let t1 := if t0 = [] then "unknown".data else t0
  if t1 ∈ SENIORITY_CHOICES then t1 else "unknown".data

/-- ai_extraction.normalize_ai_payload.  The only fallible steps are the two
_clean_int calls and the _clean_float call (int of an infinite float and
float of a huge int raise OverflowError, which the except clauses do not
catch); they are evaluated in the order the returned dict literal evaluates
them: person age, then experience years, then confidence. -/
def normalize_ai_payload (payload : Py) : Except PyErr NormalizedExtraction :=
  let kvs := as_dict payload
  let person_raw := as_dict (dget kvs "person".data)
  let exp_raw := as_dict (dget kvs "experience".data)
  let confidence_raw := as_dict (dget kvs "confidence".data)
  let doc_type := doc_type_of (dget kvs "doc_type".data)
  let seniority := seniority_of (dget exp_raw "seniority".data)
  let skills := collect_capped normalize_skill 30 (as_list (dget kvs "skills".data)) []
  let education := collect_capped normalize_education 20 (as_list (dget kvs "education".data)) []
  let keywords_evidence :=
    collect_capped normalize_keyword_evidence 40 (as_list (dget kvs "keywords_evidence".data)) []
  match clean_int (dget person_raw "age_estimate_years".data) 0 120 with
  | .error e => .error e
  | .ok age =>
    match clean_int (dget exp_raw "years_estimate".data) 0 60 with
    | .error e => .error e
    | .ok years =>
      match clean_float (dget confidence_raw "overall".data) with
      | .error e => .error e
      | .ok overall =>
        .ok
          { doc_type := doc_type,
            person :=
              { name := clean_optional_text (dget person_raw "name".data) 160,
                emails := clean_list (dget person_raw "emails".data) 10 120,
                phones := clean_list (dget person_raw "phones".data) 10 32,
                location := clean_optional_text (dget person_raw "location".data) 160,
                age_estimate_years := age,
                age_evidence := clean_optional_text (dget person_raw "age_evidence".data) 220 },
            experience :=
              { years_estimate := years,
                years_evidence := clean_optional_text (dget exp_raw "years_evidence".data) 220,
                seniority := seniority,
                roles := clean_list (dget exp_raw "roles".data) 20 120,
                companies := clean_list (dget exp_raw "companies".data) 20 120 },
            skills := skills,
            education := education,
            keywords_evidence := keywords_evidence,
            confidence_overall := overall }

def opt_str : Option Str → Py
  | none => .pynone
  | some s => .pystr s

def opt_int : Option Int → Py
  | none => .pynone
  | some n => .pyint n

def skill_to_py (s : Skill) : Py :=
  .pydict [("name".data, .pystr s.name), ("level".data, .pystr s.level),
    ("evidence".data, .pystr s.evidence)]

def education_to_py (e : Education) : Py :=
  .pydict [("degree".data, opt_str e.degree), ("institution".data, opt_str e.institution),
    ("evidence".data, .pystr e.evidence)]

def keyword_to_py (k : KeywordEvidence) : Py :=
  .pydict [("term".data, .pystr k.term), ("evidence".data, .pystr k.evidence)]

/-- The dict literal normalize_ai_payload returns, as a Python value: feeding
the normalizer its own output goes through this encoding. -/
def extraction_to_py (x : NormalizedExtraction) : Py :=
  .pydict
    [("doc_type".data, .pystr x.doc_type),
     ("person".data, .pydict
        [("name".data, opt_str x.person.name),
         ("emails".data, .pylist (x.person.emails.map .pystr)),
         ("phones".data, .pylist (x.person.phones.map .pystr)),
         ("location".data, opt_str x.person.location),
         ("age_estimate_years".data, opt_int x.person.age_estimate_years),
         ("age_evidence".data, opt_str x.person.age_evidence)]),
     ("experience".data, .pydict
        [("years_estimate".data, opt_int x.experience.years_estimate),
         ("years_evidence".data, opt_str x.experience.years_evidence),
         ("seniority".data, .pystr x.experience.seniority),
         ("roles".data, .pylist (x.experience.roles.map .pystr)),
         ("companies".data, .pylist (x.experience.companies.map .pystr))]),
     ("skills".data, .pylist (x.skills.map skill_to_py)),
     ("education".data, .pylist (x.education.map education_to_py)),
     ("keywords_evidence".data, .pylist (x.keywords_evidence.map keyword_to_py)),
     ("confidence".data, .pydict [("overall".data, .pyfloat x.confidence_overall)])]

/- ## Bounds lemmas (claims C3, C4, C9) -/

def opt_in_range : Option Int → Int → Int → Bool
  | none, _, _ => true
  | some n, lo, hi => lo ≤ n && n ≤ hi

def pf_in_01 : PyFloat → Bool
  | .finite q => 0 ≤ q && q ≤ 1
  | _ => false

theorem clean_int_ok (v : Py) (lo hi : Int) (o : Option Int)
    (h : clean_int v lo hi = .ok o) : opt_in_range o lo hi = true := by
  unfold clean_int at h
  split at h
  · cases h; rfl
  · split at h
    · cases h; rfl
    · cases h; rfl
    · exact Except.noConfusion h
    · rename_i parsed
      split at h
      · cases h; rfl
      · cases h
        rename_i hrange
        simp only [opt_in_range, Bool.and_eq_true, decide_eq_true_eq]
        omega

theorem clean_float_ok (v : Py) (f : PyFloat) (h : clean_float v = .ok f) :
    f = PyFloat.nan ∨ pf_in_01 f = true := by
  unfold clean_float at h
  split at h
  · cases h
    right
    simp [pf_in_01]
  · cases h
    right
    simp [pf_in_01]
  · exact Except.noConfusion h
  · rename_i parsed hp
    by_cases hneg : pf_lt parsed (.finite 0) = true
    · rw [if_pos hneg] at h
      cases h
      right
      simp [pf_in_01]
    · rw [if_neg hneg] at h
      by_cases hpos : pf_lt (.finite 1) parsed = true
      · rw [if_pos hpos] at h
        cases h
        right
        simp [pf_in_01, zero_le_one]
      · rw [if_neg hpos] at h
        injection h with h2
        subst h2
        cases parsed with
        | finite q =>
          right
          simp only [pf_lt, decide_eq_true_eq] at hneg hpos
          simp only [pf_in_01, Bool.and_eq_true, decide_eq_true_eq]
          exact ⟨le_of_not_lt hneg, le_of_not_lt hpos⟩
        | inf => exact absurd (rfl : pf_lt (PyFloat.finite 1) PyFloat.inf = true) hpos
        | ninf => exact absurd (rfl : pf_lt PyFloat.ninf (PyFloat.finite 0) = true) hneg
        | nan => exact Or.inl rfl

theorem clean_list_go_length (mi ml : Nat) (raws : List Py) (seen acc : List Str)
    (hacc : acc.length < mi) : (clean_list_go mi ml raws seen acc).length ≤ mi := by
  induction raws generalizing seen acc with
  | nil => simpa [clean_list_go] using Nat.le_of_lt hacc
  | cons raw rest ih =>
    simp only [clean_list_go]
    by_cases h1 : clean_text raw ml = []
    · rw [if_pos h1]
      exact ih seen acc hacc
    · rw [if_neg h1]
      by_cases h2 : lower_str (clean_text raw ml) ∈ seen
      · rw [if_pos h2]
        exact ih seen acc hacc
      · rw [if_neg h2]
        by_cases h3 : mi ≤ (acc ++ [clean_text raw ml]).length
        · rw [if_pos h3]
          simpa using hacc
        · rw [if_neg h3]
          exact ih _ _ (by omega)

theorem clean_list_length (v : Py) (mi ml : Nat) (hmi : 0 < mi) :
    (clean_list v mi ml).length ≤ mi := by
  cases v with
  | pylist xs => exact clean_list_go_length mi ml xs [] [] (by simpa using hmi)
  | pynone => simpa [clean_list] using Nat.le_of_lt hmi
  | pybool b => simpa [clean_list] using Nat.le_of_lt hmi
  | pyint n => simpa [clean_list] using Nat.le_of_lt hmi
  | pyfloat f => simpa [clean_list] using Nat.le_of_lt hmi
  | pystr s => simpa [clean_list] using Nat.le_of_lt hmi
  | pydict kvs => simpa [clean_list] using Nat.le_of_lt hmi

theorem collect_capped_length {α : Type} (f : Py → Option α) (cap : Nat) (l : List Py)
    (acc : List α) (hacc : acc.length < cap) :
    (collect_capped f cap l acc).length ≤ cap := by
  induction l generalizing acc with
  | nil => simpa [collect_capped] using Nat.le_of_lt hacc
  | cons item rest ih =>
    simp only [collect_capped]
    cases hfi : f item with
    | none =>
      simp only
      split
      · omega
      · exact ih acc hacc
    | some y =>
      simp only
      have hlen : (acc ++ [y]).length = acc.length + 1 := by simp
      split
      · omega
      · exact ih _ (by omega)

theorem collect_capped_mem {α : Type} (f : Py → Option α) (cap : Nat) (P : α → Prop)
    (hf : ∀ item x, f item = some x → P x) (l : List Py) :
    ∀ (acc : List α), (∀ a ∈ acc, P a) → ∀ x ∈ collect_capped f cap l acc, P x := by
  induction l with
  | nil =>
    intro acc hacc x hx
    exact hacc x (by simpa [collect_capped] using hx)
  | cons item rest ih =>
    intro acc hacc x hx
    simp only [collect_capped] at hx
    cases hfi : f item with
    | none =>
      rw [hfi] at hx
      simp only at hx
      split at hx
      · exact hacc x hx
      · exact ih acc hacc x hx
    | some y =>
      rw [hfi] at hx
      simp only at hx
      have hacc2 : ∀ a ∈ acc ++ [y], P a := by
        intro a ha
        rcases List.mem_append.mp ha with h | h
        · exact hacc a h
        · obtain rfl := List.mem_singleton.mp h
          exact hf item _ hfi
      split at hx
      · exact hacc2 x hx
      · exact ih _ hacc2 x hx

theorem normalize_skill_some (raw : Py) (s : Skill) (h : normalize_skill raw = some s) :
    s.name ≠ [] ∧ s.evidence ≠ [] := by
  cases raw with
  | pydict kvs =>
    simp only [normalize_skill] at h
    by_cases h1 : clean_text (dget kvs "name".data) 120 = []
    · rw [if_pos h1] at h
      exact absurd h (by simp)
    · rw [if_neg h1] at h
      by_cases h2 : clean_text (dget kvs "evidence".data) 220 = []
      · rw [if_pos h2] at h
        exact absurd h (by simp)
      · rw [if_neg h2] at h
        cases h
        exact ⟨h1, h2⟩
  | pynone => exact absurd h (by simp [normalize_skill])
  | pybool b => exact absurd h (by simp [normalize_skill])
  | pyint n => exact absurd h (by simp [normalize_skill])
  | pyfloat f => exact absurd h (by simp [normalize_skill])
  | pystr s2 => exact absurd h (by simp [normalize_skill])
  | pylist xs => exact absurd h (by simp [normalize_skill])

theorem normalize_education_some (raw : Py) (e : Education)
    (h : normalize_education raw = some e) : e.evidence ≠ [] := by
  cases raw with
  | pydict kvs =>
    simp only [normalize_education] at h
    by_cases h1 : clean_text (dget kvs "evidence".data) 220 = []
    · rw [if_pos h1] at h
      exact absurd h (by simp)
    · rw [if_neg h1] at h
      cases h
      exact h1
  | pynone => exact absurd h (by simp [normalize_education])
  | pybool b => exact absurd h (by simp [normalize_education])
  | pyint n => exact absurd h (by simp [normalize_education])
  | pyfloat f => exact absurd h (by simp [normalize_education])
  | pystr s2 => exact absurd h (by simp [normalize_education])
  | pylist xs => exact absurd h (by simp [normalize_education])

theorem normalize_keyword_some (raw : Py) (k : KeywordEvidence)
    (h : normalize_keyword_evidence raw = some k) : k.term ≠ [] ∧ k.evidence ≠ [] := by
  cases raw with
  | pydict kvs =>
    simp only [normalize_keyword_evidence] at h
    by_cases h1 : clean_text (dget kvs "term".data) 120 = [] ∨
        clean_text (dget kvs "evidence".data) 220 = []
    · rw [if_pos h1] at h
      exact absurd h (by simp)
    · rw [if_neg h1] at h
      cases h
      push_neg at h1
      exact h1
  | pynone => exact absurd h (by simp [normalize_keyword_evidence])
  | pybool b => exact absurd h (by simp [normalize_keyword_evidence])
  | pyint n => exact absurd h (by simp [normalize_keyword_evidence])
  | pyfloat f => exact absurd h (by simp [normalize_keyword_evidence])
  | pystr s2 => exact absurd h (by simp [normalize_keyword_evidence])
  | pylist xs => exact absurd h (by simp [normalize_keyword_evidence])

/- ## Claims C3, C4, C9 -/

/-- Claim C3, amended: for every input accepted without an escaping exception,
all declared bounds hold, EXCEPT that confidence.overall can also be NaN
(NaN slips through both clamp comparisons): confidence is NaN or lies in
[0, 1]; the age estimate is null or in [0, 120]; the experience estimate is
null or in [0, 60]; and every list is within its cap (emails and phones 10,
roles and companies 20, skills 30, education 20, keywords_evidence 40). -/
theorem c3_bounds (payload : Py) (out : NormalizedExtraction)
    (h : normalize_ai_payload payload = .ok out) :
    (out.confidence_overall = PyFloat.nan ∨ pf_in_01 out.confidence_overall = true) ∧
    opt_in_range out.person.age_estimate_years 0 120 = true ∧
    opt_in_range out.experience.years_estimate 0 60 = true ∧
    out.person.emails.length ≤ 10 ∧ out.person.phones.length ≤ 10 ∧
    out.experience.roles.length ≤ 20 ∧ out.experience.companies.length ≤ 20 ∧
    out.skills.length ≤ 30 ∧ out.education.length ≤ 20 ∧
    out.keywords_evidence.length ≤ 40 := by
  simp only [normalize_ai_payload] at h
  cases hage : clean_int (dget (as_dict (dget (as_dict payload) "person".data))
      "age_estimate_years".data) 0 120 with
  | error e => rw [hage] at h; exact Except.noConfusion h
  | ok age =>
    rw [hage] at h
    cases hyears : clean_int (dget (as_dict (dget (as_dict payload) "experience".data))
        "years_estimate".data) 0 60 with
    | error e => rw [hyears] at h; exact Except.noConfusion h
    | ok years =>
      rw [hyears] at h
      cases hoverall : clean_float (dget (as_dict (dget (as_dict payload) "confidence".data))
          "overall".data) with
      | error e => rw [hoverall] at h; exact Except.noConfusion h
      | ok overall =>
        rw [hoverall] at h
        cases h
        refine ⟨clean_float_ok _ _ hoverall, clean_int_ok _ _ _ _ hage,
          clean_int_ok _ _ _ _ hyears, ?_, ?_, ?_, ?_, ?_, ?_, ?_⟩
        · exact clean_list_length _ _ _ (by omega)
        · exact clean_list_length _ _ _ (by omega)
        · exact clean_list_length _ _ _ (by omega)
        · exact clean_list_length _ _ _ (by omega)
        · exact collect_capped_length _ _ _ _ (by simp)
        · exact collect_capped_length _ _ _ _ (by simp)
        · exact collect_capped_length _ _ _ _ (by simp)

/-- Claim C3 counterexample: a payload whose confidence.overall is NaN is
accepted and its confidence.overall in the output is NaN, which does not lie
in [0, 1]. -/
theorem c3_counterexample :
    (normalize_ai_payload (Py.pydict [("confidence".data, Py.pydict
      [("overall".data, Py.pyfloat PyFloat.nan)])])).map
        (fun x => x.confidence_overall) = .ok PyFloat.nan ∧
    pf_in_01 PyFloat.nan = false :=
  ⟨rfl, rfl⟩

theorem c3_witness :
    (PyFloat.finite 0 = PyFloat.nan ∨ pf_in_01 (PyFloat.finite 0) = true) ∧
    opt_in_range (none : Option Int) 0 120 = true ∧
    opt_in_range (none : Option Int) 0 60 = true ∧
    ([] : List Str).length ≤ 10 ∧ ([] : List Str).length ≤ 10 ∧
    ([] : List Str).length ≤ 20 ∧ ([] : List Str).length ≤ 20 ∧
    ([] : List Skill).length ≤ 30 ∧ ([] : List Education).length ≤ 20 ∧
    ([] : List KeywordEvidence).length ≤ 40 :=
  c3_bounds Py.pynone
    { doc_type := "outro".data,
      person := { name := none, emails := [], phones := [], location := none,
                  age_estimate_years := none, age_evidence := none },
      experience := { years_estimate := none, years_evidence := none,
                      seniority := "unknown".data, roles := [], companies := [] },
      skills := [], education := [], keywords_evidence := [],
      confidence_overall := PyFloat.finite 0 } rfl

/-- Claim C4 (code bug): normalize_ai_payload is NOT total.  The payload
whose person.age_estimate_years is the float infinity makes int(value) raise
OverflowError inside _clean_int, and the except clause only catches TypeError
and ValueError, so the normalizer raises instead of returning a normalized
payload.  The spec guarantees it must never throw on bad data. -/
theorem c4_overflow_raises :
    normalize_ai_payload (Py.pydict [("person".data, Py.pydict
      [("age_estimate_years".data, Py.pyfloat PyFloat.inf)])]) =
      .error PyErr.overflowErr :=
  rfl

/-- Claim C9: every composite list entry missing a required field is dropped
entirely: output skills all carry a non-empty name and evidence, output
education entries a non-empty evidence, output keyword entries a non-empty
term and evidence; and an input whose required field cleans to empty
normalizes to None (so it is never appended). -/
theorem c9_required_fields (payload : Py) (out : NormalizedExtraction)
    (h : normalize_ai_payload payload = .ok out) :
    (∀ s ∈ out.skills, s.name ≠ [] ∧ s.evidence ≠ []) ∧
    (∀ e ∈ out.education, e.evidence ≠ []) ∧
    (∀ k ∈ out.keywords_evidence, k.term ≠ [] ∧ k.evidence ≠ []) ∧
    (∀ kvs, clean_text (dget kvs "evidence".data) 220 = [] →
      normalize_skill (.pydict kvs) = none) ∧
    (∀ kvs, clean_text (dget kvs "name".data) 120 = [] →
      normalize_skill (.pydict kvs) = none) ∧
    (∀ kvs, clean_text (dget kvs "term".data) 120 = [] →
      normalize_keyword_evidence (.pydict kvs) = none) := by
  simp only [normalize_ai_payload] at h
  cases hage : clean_int (dget (as_dict (dget (as_dict payload) "person".data))
      "age_estimate_years".data) 0 120 with
  | error e => rw [hage] at h; exact Except.noConfusion h
  | ok age =>
    rw [hage] at h
    cases hyears : clean_int (dget (as_dict (dget (as_dict payload) "experience".data))
        "years_estimate".data) 0 60 with
    | error e => rw [hyears] at h; exact Except.noConfusion h
    | ok years =>
      rw [hyears] at h
      cases hoverall : clean_float (dget (as_dict (dget (as_dict payload) "confidence".data))
          "overall".data) with
      | error e => rw [hoverall] at h; exact Except.noConfusion h
      | ok overall =>
        rw [hoverall] at h
        cases h
        refine ⟨?_, ?_, ?_, ?_, ?_, ?_⟩
        · exact collect_capped_mem _ _ _ normalize_skill_some _ [] (by simp)
        · exact collect_capped_mem _ _ _ normalize_education_some _ [] (by simp)
        · exact collect_capped_mem _ _ _ normalize_keyword_some _ [] (by simp)
        · intro kvs hev
          simp only [normalize_skill]
          by_cases h1 : clean_text (dget kvs "name".data) 120 = []
          · rw [if_pos h1]
          · rw [if_neg h1, if_pos hev]
        · intro kvs hname
          simp only [normalize_skill]
          rw [if_pos hname]
        · intro kvs hterm
          simp only [normalize_keyword_evidence]
          rw [if_pos (Or.inl hterm)]

theorem c9_witness :
    (∀ s ∈ [Skill.mk "Docker".data "unknown".data "uses docker".data],
      s.name ≠ [] ∧ s.evidence ≠ []) ∧
    (∀ e ∈ ([] : List Education), e.evidence ≠ []) ∧
    (∀ k ∈ ([] : List KeywordEvidence), k.term ≠ [] ∧ k.evidence ≠ []) ∧
    (∀ kvs, clean_text (dget kvs "evidence".data) 220 = [] →
      normalize_skill (.pydict kvs) = none) ∧
    (∀ kvs, clean_text (dget kvs "name".data) 120 = [] →
      normalize_skill (.pydict kvs) = none) ∧
    (∀ kvs, clean_text (dget kvs "term".data) 120 = [] →
      normalize_keyword_evidence (.pydict kvs) = none) :=
  c9_required_fields
    (Py.pydict [("skills".data, Py.pylist
      [Py.pydict [("name".data, Py.pystr "Docker".data),
        ("evidence".data, Py.pystr "uses docker".data)],
       Py.pydict [("name".data, Py.pystr "K8s".data),
        ("evidence".data, Py.pystr "".data)]])])
    { doc_type := "outro".data,
      person := { name := none, emails := [], phones := [], location := none,
                  age_estimate_years := none, age_evidence := none },
      experience := { years_estimate := none, years_evidence := none,
                      seniority := "unknown".data, roles := [], companies := [] },
      skills := [Skill.mk "Docker".data "unknown".data "uses docker".data],
      education := [], keywords_evidence := [],
      confidence_overall := PyFloat.finite 0 } rfl

/- ## ai_filters.py (and services._normalize_for_match) -/

/-- services._normalize_for_match, preserved verbatim in migration 0010 (the
services module itself is outside src/): NFKD-decompose and drop combining
marks (the identity on the ASCII fragment modelled here), collapse whitespace
runs to single spaces, strip, lower. -/
def normalize_for_match (value : Str) : Str :=
  lower_str (strip (resub_ws value))

/-- The document attributes the semantic filters read. -/
structure Doc where
  extracted_json : Py
  extracted_experience_years : Py
  extracted_age_years : Py
  text_content_norm : Str
  text_content : Str
  extracted_text : Str

/-- ai_filters.get_ai_payload on a document record. -/
def get_ai_payload (doc : Doc) : List (Str × Py) :=
  as_dict (dget (as_dict doc.extracted_json) "ai".data)

/-- ai_filters._safe_int: textually identical to ai_extraction._clean_int. -/
def safe_int (v : Py) (min_value max_value : Int) : Except PyErr (Option Int) :=
  clean_int v min_value max_value

def chunk_if (s : Str) : List Str :=
  if s = [] then [] else [s]

/-- ai_filters._iter_search_chunks: the fixed traversal order of the stored
AI payload, yielding each cleaned non-empty chunk. -/
def iter_search_chunks (ai_payload : List (Str × Py)) : List Str :=
  if ai_payload.isEmpty then []
  else
    let person := as_dict (dget ai_payload "person".data)
    let experience := as_dict (dget ai_payload "experience".data)
    chunk_if (clean_text (dget ai_payload "doc_type".data) 80)
    ++ (["name".data, "location".data, "age_evidence".data].map
        (fun k => chunk_if (clean_text (dget person k) 220))).flatten
    ++ (["emails".data, "phones".data].map
        (fun f => ((as_list (dget person f)).map
          (fun v => chunk_if (clean_text v 120))).flatten)).flatten
    ++ (["seniority".data, "years_evidence".data].map
        (fun k => chunk_if (clean_text (dget experience k) 220))).flatten
    ++ (match dget experience "years_estimate".data with
        | .pynone => []
        | v => [py_str_of v])
    ++ (["roles".data, "companies".data].map
        (fun f => ((as_list (dget experience f)).map
          (fun v => chunk_if (clean_text v 120))).flatten)).flatten
    ++ ((as_list (dget ai_payload "skills".data)).map
        (fun skill => (["name".data, "level".data, "evidence".data].map
          (fun k => chunk_if (clean_text (dget (as_dict skill) k) 220))).flatten)).flatten
    ++ ((as_list (dget ai_payload "education".data)).map
        (fun entry => (["degree".data, "institution".data, "evidence".data].map
          (fun k => chunk_if (clean_text (dget (as_dict entry) k) 220))).flatten)).flatten
    ++ ((as_list (dget ai_payload "keywords_evidence".data)).map
        (fun entry => (["term".data, "evidence".data].map
          (fun k => chunk_if (clean_text (dget (as_dict entry) k) 220))).flatten)).flatten

/-- ai_filters.build_ai_search_blob main loop: normalize every chunk, drop
empties, dedup on the normalized form keeping first occurrences. -/
def blob_go : List Str → List Str → List Str → List Str
  | [], _, acc => acc
  | chunk :: rest, seen, acc =>
    let normalized := normalize_for_match chunk
    if normalized = [] ∨ normalized ∈ seen then blob_go rest seen acc
    else blob_go rest (normalized :: seen) (acc ++ [normalized])

/-- ai_filters.build_ai_search_blob. -/
def build_ai_search_blob (ai_payload : List (Str × Py)) : Str :=
  join_sp (blob_go (iter_search_chunks ai_payload) [] [])

/-- ai_filters._build_document_blob. -/
def build_document_blob (doc : Doc) : Str :=
  let ai_blob := build_ai_search_blob (get_ai_payload doc)
  let text_blob := clean_text (.pystr doc.text_content_norm) 0
  let text_blob :=
    if text_blob = [] then
      normalize_for_match
        (if doc.text_content ≠ [] then doc.text_content else doc.extracted_text)
    else text_blob
  if ai_blob ≠ [] ∧ text_blob ≠ [] then ai_blob ++ ' ' :: text_blob
  else if ai_blob ≠ [] then ai_blob
  else text_blob

/-- ai_filters.document_matches_terms. -/
def document_matches_terms (doc : Doc) (terms : List Str) (mode : Str) : Bool :=
  if terms = [] then true
  else
    let blob := build_document_blob doc
    if blob = [] then false
    else if mode = "any".data then terms.any (fun t => has_sub t blob)
    else terms.all (fun t => has_sub t blob)

/-- ai_filters.document_matches_excludes. -/
def document_matches_excludes (doc : Doc) (exclude_terms : List Str) : Bool :=
  if exclude_terms = [] then false
  else
    let blob := build_document_blob doc
    if blob = [] then false
    else exclude_terms.any (fun t => has_sub t blob)

/-- ai_filters.resolve_experience_years. -/
def resolve_experience_years (doc : Doc) : Except PyErr (Option Int) :=
  let experience := as_dict (dget (get_ai_payload doc) "experience".data)
  match safe_int (dget experience "years_estimate".data) 0 60 with
  | .error e => .error e
  | .ok (some v) => .ok (some v)
  | .ok none => safe_int doc.extracted_experience_years 0 60

/-- ai_filters.resolve_age_years. -/
def resolve_age_years (doc : Doc) : Except PyErr (Option Int) :=
  let person := as_dict (dget (get_ai_payload doc) "person".data)
  match safe_int (dget person "age_estimate_years".data) 0 120 with
  | .error e => .error e
  | .ok (some v) => .ok (some v)
  | .ok none => safe_int doc.extracted_age_years 0 120

/-- ai_filters.document_passes_ranges, translated if-block by if-block: each
reject condition is matched on (bound, resolved value). -/
def document_passes_ranges (doc : Doc)
    (experience_min_years experience_max_years age_min_years age_max_years : Option Int)
    (exclude_unknowns : Bool) : Except PyErr Bool :=
  match resolve_experience_years doc with
  | .error e => .error e
  | .ok experience_value =>
    match resolve_age_years doc with
    | .error e => .error e
    | .ok age_value =>
      .ok (
        if (match experience_min_years, experience_value with
            | some _, none => exclude_unknowns
            | some b, some v => v < b
            | none, _ => false) then false
        else if (match experience_max_years, experience_value with
            | some _, none => exclude_unknowns
            | some b, some v => b < v
            | none, _ => false) then false
        else if (match age_min_years, age_value with
            | some _, none => exclude_unknowns
            | some b, some v => v < b
            | none, _ => false) then false
        else if (match age_max_years, age_value with
            | some _, none => exclude_unknowns
            | some b, some v => b < v
            | none, _ => false) then false
        else true)

/-- Modelled from the spec (section 4.6 range checks), for comparison with
document_passes_ranges: a lower bound passes when unspecified; when specified
and the value is unknown it passes exactly when exclude_unknowns is false;
when the value is known it passes exactly when the value is at least the
bound. -/
def passes_min_spec (v b : Option Int) (exclude_unknowns : Bool) : Bool :=
  match b with
  | none => true
  | some bb =>
    match v with
    | none => !exclude_unknowns
    | some vv => bb ≤ vv

/-- Modelled from the spec (section 4.6 range checks): the upper-bound check,
dual to passes_min_spec. -/
def passes_max_spec (v b : Option Int) (exclude_unknowns : Bool) : Bool :=
  match b with
  | none => true
  | some bb =>
    match v with
    | none => !exclude_unknowns
    | some vv => vv ≤ bb

/- ## Claims C7, C8, C10 -/

/-- Claim C7: the range filter prefers the AI-normalized value whenever
_safe_int accepts it (present, integer-parseable and in bounds: [0,60] for
experience, [0,120] for age) and falls back to the heuristic field of the document
exactly when _safe_int rejects it; and the concrete document with heuristic
extracted_experience_years 1 and AI years_estimate 6 passes a filter with
experience_min_years 5. -/
theorem c7_precedence (doc : Doc) (v : Int) :
    (safe_int (dget (as_dict (dget (get_ai_payload doc) "experience".data))
        "years_estimate".data) 0 60 = .ok (some v) →
      resolve_experience_years doc = .ok (some v)) ∧
    (safe_int (dget (as_dict (dget (get_ai_payload doc) "experience".data))
        "years_estimate".data) 0 60 = .ok none →
      resolve_experience_years doc = safe_int doc.extracted_experience_years 0 60) ∧
    (safe_int (dget (as_dict (dget (get_ai_payload doc) "person".data))
        "age_estimate_years".data) 0 120 = .ok (some v) →
      resolve_age_years doc = .ok (some v)) ∧
    (safe_int (dget (as_dict (dget (get_ai_payload doc) "person".data))
        "age_estimate_years".data) 0 120 = .ok none →
      resolve_age_years doc = safe_int doc.extracted_age_years 0 120) ∧
    document_passes_ranges
      { extracted_json := Py.pydict [("ai".data, Py.pydict [("experience".data,
          Py.pydict [("years_estimate".data, Py.pyint 6)])])],
        extracted_experience_years := Py.pyint 1,
        extracted_age_years := Py.pynone,
        text_content_norm := [], text_content := [], extracted_text := [] }
      (some 5) none none none false = .ok true := by
  refine ⟨?_, ?_, ?_, ?_, ?_⟩
  · intro h
    simp only [resolve_experience_years]
    rw [h]
  · intro h
    simp only [resolve_experience_years]
    rw [h]
  · intro h
    simp only [resolve_age_years]
    rw [h]
  · intro h
    simp only [resolve_age_years]
    rw [h]
  · rfl

theorem c7_witness :
    resolve_experience_years
      { extracted_json := Py.pydict [("ai".data, Py.pydict [("experience".data,
          Py.pydict [("years_estimate".data, Py.pyint 6)])])],
        extracted_experience_years := Py.pyint 1,
        extracted_age_years := Py.pynone,
        text_content_norm := [], text_content := [], extracted_text := [] } = .ok (some 6) ∧
    document_passes_ranges
      { extracted_json := Py.pydict [("ai".data, Py.pydict [("experience".data,
          Py.pydict [("years_estimate".data, Py.pyint 6)])])],
        extracted_experience_years := Py.pyint 1,
        extracted_age_years := Py.pynone,
        text_content_norm := [], text_content := [], extracted_text := [] }
      (some 5) none none none false = .ok true :=
  ⟨(c7_precedence
      { extracted_json := Py.pydict [("ai".data, Py.pydict [("experience".data,
          Py.pydict [("years_estimate".data, Py.pyint 6)])])],
        extracted_experience_years := Py.pyint 1,
        extracted_age_years := Py.pynone,
        text_content_norm := [], text_content := [], extracted_text := [] } 6).1 rfl,
   (c7_precedence
      { extracted_json := Py.pydict [("ai".data, Py.pydict [("experience".data,
          Py.pydict [("years_estimate".data, Py.pyint 6)])])],
        extracted_experience_years := Py.pyint 1,
        extracted_age_years := Py.pynone,
        text_content_norm := [], text_content := [], extracted_text := [] } 6).2.2.2.2⟩

/-- Claim C8: for each independently optional bound, an unknown resolved
value is rejected exactly when the bound is specified and exclude_unknowns is
true, and a known value must lie between the specified bounds; formally,
document_passes_ranges computes the conjunction of the four per-bound spec
predicates over the resolved experience and age values. -/
theorem c8_ranges (doc : Doc)
    (emin emax amin amax : Option Int) (excl : Bool) (ev av : Option Int)
    (hev : resolve_experience_years doc = .ok ev)
    (hav : resolve_age_years doc = .ok av) :
    document_passes_ranges doc emin emax amin amax excl =
      .ok (passes_min_spec ev emin excl && passes_max_spec ev emax excl &&
           passes_min_spec av amin excl && passes_max_spec av amax excl) := by
  unfold document_passes_ranges
  rw [hev, hav]
  rcases ev with _ | v <;> rcases av with _ | w <;>
    rcases emin with _ | b1 <;> rcases emax with _ | b2 <;>
    rcases amin with _ | b3 <;> rcases amax with _ | b4 <;>
    cases excl <;>
    simp only [passes_min_spec, passes_max_spec] <;>
    split_ifs <;>
    first
      | rfl
      | (simp_all <;> omega)
      | simp_all
      | omega

theorem c8_witness :
    document_passes_ranges
      { extracted_json := Py.pynone, extracted_experience_years := Py.pynone,
        extracted_age_years := Py.pynone,
        text_content_norm := [], text_content := [], extracted_text := [] }
      (some 3) none none none true =
      .ok (passes_min_spec none (some 3) true && passes_max_spec none none true &&
           passes_min_spec none none true && passes_max_spec none none true) :=
  c8_ranges
    { extracted_json := Py.pynone, extracted_experience_years := Py.pynone,
      extracted_age_years := Py.pynone,
      text_content_norm := [], text_content := [], extracted_text := [] }
    (some 3) none none none true none none rfl rfl

/-- Claim C10: a document whose search blob is empty can never be excluded:
document_matches_excludes is false on it for every exclude_terms list, so a
filter consisting only of exclusion terms admits every contentless
document. -/
theorem c10_empty_blob (doc : Doc) (exclude_terms : List Str)
    (h : build_document_blob doc = []) :
    document_matches_excludes doc exclude_terms = false := by
  unfold document_matches_excludes
  by_cases ht : exclude_terms = []
  · rw [if_pos ht]
  · rw [if_neg ht, if_pos h]

theorem c10_witness :
    document_matches_excludes
      { extracted_json := Py.pynone, extracted_experience_years := Py.pynone,
        extracted_age_years := Py.pynone,
        text_content_norm := [], text_content := [], extracted_text := [] }
      ["x".data] = false :=
  c10_empty_blob
    { extracted_json := Py.pynone, extracted_experience_years := Py.pynone,
      extracted_age_years := Py.pynone,
      text_content_norm := [], text_content := [], extracted_text := [] }
    ["x".data] rfl

/- ## Fixpoint infrastructure for claim C5 (idempotence) -/

/-- A word list as produced by splitting: every word is non-empty and free of
whitespace. -/
def WordsLike (ws : List Str) : Prop :=
  ∀ w ∈ ws, w ≠ [] ∧ ∀ c ∈ w, is_space c = false

theorem words_aux_wordsLike (s : Str) : ∀ cur, (∀ c ∈ cur, is_space c = false) →
    ∀ w ∈ words_aux s cur, w ≠ [] ∧ ∀ c ∈ w, is_space c = false := by
  induction s with
  | nil =>
    intro cur hcur w hw
    simp only [words_aux] at hw
    split at hw
    · exact absurd hw (List.not_mem_nil w)
    · rename_i hne
      rw [List.mem_singleton] at hw
      subst hw
      exact ⟨hne, hcur⟩
  | cons c cs ih =>
    intro cur hcur w hw
    simp only [words_aux] at hw
    by_cases hsp : is_space c = true
    · rw [if_pos hsp] at hw
      by_cases hcur0 : cur = []
      · rw [if_pos hcur0] at hw
        exact ih [] (by simp) w hw
      · rw [if_neg hcur0] at hw
        rcases List.mem_cons.mp hw with rfl | hw2
        · exact ⟨hcur0, hcur⟩
        · exact ih [] (by simp) w hw2
    · rw [if_neg hsp] at hw
      refine ih (cur ++ [c]) ?_ w hw
      intro c2 hc2
      rcases List.mem_append.mp hc2 with h2 | h2
      · exact hcur c2 h2
      · rw [List.mem_singleton] at h2
        subst h2
        exact Bool.not_eq_true _ ▸ hsp

theorem words_wordsLike (s : Str) : WordsLike (words s) :=
  fun w hw => words_aux_wordsLike s [] (by simp) w hw

theorem words_aux_append : ∀ (w s cur : Str), (∀ c ∈ w, is_space c = false) →
    words_aux (w ++ s) cur = words_aux s (cur ++ w) := by
  intro w
  induction w with
  | nil => intro s cur _; simp
  | cons c w2 ih =>
    intro s cur hw
    have hc : is_space c = false := hw c (by simp)
    have hw2 : ∀ x ∈ w2, is_space x = false := fun x hx => hw x (by simp [hx])
    show words_aux (c :: (w2 ++ s)) cur = _
    simp only [words_aux]
    rw [if_neg (by simp [hc])]
    rw [ih s (cur ++ [c]) hw2]
    simp

theorem join_sp_cons_cons (w w2 : Str) (rest : List Str) :
    join_sp (w :: w2 :: rest) = w ++ ' ' :: join_sp (w2 :: rest) := rfl

theorem join_sp_ne_nil (w : Str) (rest : List Str) (hw : w ≠ []) :
    join_sp (w :: rest) ≠ [] := by
  cases rest with
  | nil => exact hw
  | cons w2 r2 =>
    rw [join_sp_cons_cons]
    intro hcontra
    exact hw (List.append_eq_nil.mp hcontra).1

theorem words_join (ws : List Str) (h : WordsLike ws) : words (join_sp ws) = ws := by
  induction ws with
  | nil => rfl
  | cons w rest ih =>
    have hw := h w (by simp)
    cases rest with
    | nil =>
      show words_aux (join_sp [w]) [] = [w]
      have h1 : join_sp [w] = w ++ [] := by simp [join_sp]
      rw [h1, words_aux_append w [] [] hw.2]
      simp [words_aux, hw.1]
    | cons w2 rest2 =>
      have hrest : WordsLike (w2 :: rest2) := fun x hx => h x (by simp [hx])
      show words_aux (join_sp (w :: w2 :: rest2)) [] = _
      rw [join_sp_cons_cons, words_aux_append w _ [] hw.2]
      simp only [List.nil_append]
      have hstep : words_aux (' ' :: join_sp (w2 :: rest2)) w =
          w :: words_aux (join_sp (w2 :: rest2)) [] := by
        simp [words_aux, is_space, hw.1]
      rw [hstep]
      exact congrArg (w :: ·) (ih hrest)

theorem rstrip_no_space (s : Str) (h : ∀ c ∈ s, is_space c = false) : rstrip s = s := by
  induction s with
  | nil => rfl
  | cons c cs ih =>
    have hcs : rstrip cs = cs := ih (fun x hx => h x (by simp [hx]))
    have hc : is_space c = false := h c (by simp)
    show (match rstrip cs with
          | [] => if is_space c then [] else [c]
          | r => c :: r) = c :: cs
    rw [hcs]
    cases cs with
    | nil => simp [hc]
    | cons d ds => rfl

theorem rstrip_append (s t : Str) :
    rstrip (s ++ t) = if rstrip t = [] then rstrip s else s ++ rstrip t := by
  induction s with
  | nil =>
    by_cases h : rstrip t = [] <;> simp [h, rstrip]
  | cons c s2 ih =>
    show (match rstrip (s2 ++ t) with
          | [] => if is_space c then [] else [c]
          | r => c :: r) = _
    rw [ih]
    by_cases h : rstrip t = []
    · rw [if_pos h, if_pos h]
      rfl
    · rw [if_neg h, if_neg h]
      cases hcase : s2 ++ rstrip t with
      | nil => exact absurd (List.append_eq_nil.mp hcase).2 h
      | cons a b =>
        rw [List.cons_append, hcase]

theorem rstrip_length_le (s : Str) : (rstrip s).length ≤ s.length := by
  induction s with
  | nil => exact Nat.le_refl 0
  | cons c cs ih =>
    show List.length (match rstrip cs with
          | [] => if is_space c then [] else [c]
          | r => c :: r) ≤ cs.length + 1
    cases hcase : rstrip cs with
    | nil =>
      by_cases hc : is_space c = true <;> simp [hc]
    | cons a b =>
      rw [hcase] at ih
      simp only [List.length_cons] at ih ⊢
      omega

theorem rstrip_join (ws : List Str) (h : WordsLike ws) : rstrip (join_sp ws) = join_sp ws := by
  induction ws with
  | nil => rfl
  | cons w rest ih =>
    cases rest with
    | nil => exact rstrip_no_space w (h w (by simp)).2
    | cons w2 rest2 =>
      have hrest : WordsLike (w2 :: rest2) := fun x hx => h x (by simp [hx])
      have hne : join_sp (w2 :: rest2) ≠ [] :=
        join_sp_ne_nil w2 rest2 (hrest w2 (by simp)).1
      rw [join_sp_cons_cons, rstrip_append]
      have hsp : rstrip (' ' :: join_sp (w2 :: rest2)) = ' ' :: join_sp (w2 :: rest2) := by
        show (match rstrip (join_sp (w2 :: rest2)) with
              | [] => if is_space ' ' then [] else [' ']
              | r => ' ' :: r) = _
        rw [ih hrest]
        cases hcase : join_sp (w2 :: rest2) with
        | nil => exact absurd hcase hne
        | cons a b => rfl
      rw [hsp, if_neg (by simp)]

theorem lstrip_join (ws : List Str) (h : WordsLike ws) : lstrip (join_sp ws) = join_sp ws := by
  cases ws with
  | nil => rfl
  | cons w rest =>
    have hw := h w (by simp)
    cases hwc : w with
    | nil => exact absurd hwc hw.1
    | cons c w2 =>
      have hc : is_space c = false := by
        refine hw.2 c ?_
        rw [hwc]
        simp
      have hshape : ∃ t, join_sp ((c :: w2) :: rest) = c :: t := by
        cases rest with
        | nil => exact ⟨w2, rfl⟩
        | cons x r => exact ⟨w2 ++ ' ' :: join_sp (x :: r), by rw [join_sp_cons_cons]; rfl⟩
      obtain ⟨t, ht⟩ := hshape
      rw [ht]
      simp [lstrip, List.dropWhile_cons, hc]

theorem strip_join (ws : List Str) (h : WordsLike ws) : strip (join_sp ws) = join_sp ws := by
  unfold strip
  rw [lstrip_join ws h, rstrip_join ws h]

theorem rstrip_take_join (ws : List Str) (h : WordsLike ws) : ∀ m : Nat,
    ∃ ws2, WordsLike ws2 ∧ rstrip ((join_sp ws).take m) = join_sp ws2 := by
  induction ws with
  | nil =>
    intro m
    exact ⟨[], by intro w hw; exact absurd hw (List.not_mem_nil w), by simp [join_sp, rstrip]⟩
  | cons w rest ih =>
    intro m
    have hw := h w (by simp)
    have hsingle : ∀ n : Nat, ∃ ws2, WordsLike ws2 ∧ rstrip (w.take n) = join_sp ws2 := by
      intro n
      by_cases hmm : w.take n = []
      · exact ⟨[], by intro x hx; exact absurd hx (List.not_mem_nil x), by rw [hmm]; rfl⟩
      · refine ⟨[w.take n], ?_, ?_⟩
        · intro x hx
          rw [List.mem_singleton] at hx
          subst hx
          exact ⟨hmm, fun c hc => hw.2 c (List.take_subset n w hc)⟩
        · show rstrip (w.take n) = join_sp [w.take n]
          exact rstrip_no_space _ (fun c hc => hw.2 c (List.take_subset n w hc))
    cases rest with
    | nil => exact hsingle m
    | cons w2 rest2 =>
      have hrest : WordsLike (w2 :: rest2) := fun x hx => h x (by simp [hx])
      rw [join_sp_cons_cons, List.take_append_eq_append_take]
      by_cases hm : m ≤ w.length
      · have h0 : m - w.length = 0 := by omega
        rw [h0]
        simp only [List.take_zero, List.append_nil]
        exact hsingle m
      · rw [List.take_of_length_le (by omega)]
        have hk : m - w.length = (m - w.length - 1) + 1 := by omega
        rw [hk, List.take_succ_cons, rstrip_append]
        obtain ⟨ws2, hws2, heq⟩ := ih hrest (m - w.length - 1)
        have hsp : rstrip (' ' :: ((join_sp (w2 :: rest2)).take (m - w.length - 1))) =
            if join_sp ws2 = [] then [] else ' ' :: join_sp ws2 := by
          show (match rstrip ((join_sp (w2 :: rest2)).take (m - w.length - 1)) with
                | [] => if is_space ' ' then [] else [' ']
                | r => ' ' :: r) = _
          rw [heq]
          cases hcase : join_sp ws2 with
          | nil => simp [is_space]
          | cons a b => rfl
        rw [hsp]
        by_cases hc2 : join_sp ws2 = []
        · rw [if_pos hc2]
          rw [if_pos rfl]
          refine ⟨[w], ?_, rstrip_no_space w hw.2⟩
          intro x hx
          rw [List.mem_singleton] at hx
          subst hx
          exact hw
        · rw [if_neg hc2]
          rw [if_neg (by simp)]
          cases hws2c : ws2 with
          | nil => exact absurd (by rw [hws2c]; rfl) hc2
          | cons a b =>
            refine ⟨w :: a :: b, ?_, ?_⟩
            · intro x hx
              rcases List.mem_cons.mp hx with rfl | hx2
              · exact hw
              · refine hws2 x ?_
                rw [hws2c]
                exact hx2
            · rw [join_sp_cons_cons]

/-- The non-None body of _clean_text always produces a join of words. -/
theorem cleaned_shape (p : Str) (m : Nat) :
    ∃ ws, WordsLike ws ∧
      (let cleaned := strip (join_split p)
       if m ≠ 0 ∧ m < cleaned.length then rstrip (cleaned.take m) else cleaned) = join_sp ws := by
  have hwl : WordsLike (words p) := words_wordsLike p
  have hs : strip (join_split p) = join_sp (words p) := strip_join (words p) hwl
  by_cases hc : m ≠ 0 ∧ m < (strip (join_split p)).length
  · obtain ⟨ws2, hws2, heq⟩ := rstrip_take_join (words p) hwl m
    refine ⟨ws2, hws2, ?_⟩
    rw [if_pos hc, hs, heq]
  · refine ⟨words p, hwl, ?_⟩
    rw [if_neg hc, hs]

theorem clean_text_cleaned (v : Py) (m : Nat) :
    ∃ ws, WordsLike ws ∧ clean_text v m = join_sp ws := by
  cases v with
  | pynone => exact ⟨[], by intro w hw; exact absurd hw (List.not_mem_nil w), rfl⟩
  | pybool b => exact cleaned_shape (py_str_of (.pybool b)) m
  | pyint n => exact cleaned_shape (py_str_of (.pyint n)) m
  | pyfloat f => exact cleaned_shape (py_str_of (.pyfloat f)) m
  | pystr s => exact cleaned_shape (py_str_of (.pystr s)) m
  | pylist xs => exact cleaned_shape (py_str_of (.pylist xs)) m
  | pydict kvs => exact cleaned_shape (py_str_of (.pydict kvs)) m

theorem cleaned_len (p : Str) (m : Nat) (hm : m ≠ 0) :
    (let cleaned := strip (join_split p)
     if m ≠ 0 ∧ m < cleaned.length then rstrip (cleaned.take m) else cleaned).length ≤ m := by
  by_cases hc : m ≠ 0 ∧ m < (strip (join_split p)).length
  · rw [if_pos hc]
    calc (rstrip ((strip (join_split p)).take m)).length
        ≤ ((strip (join_split p)).take m).length := rstrip_length_le _
      _ ≤ m := by simp [List.length_take]
  · rw [if_neg hc]
    rcases not_and_or.mp hc with h1 | h2
    · exact absurd hm h1
    · omega

theorem clean_text_len (v : Py) (m : Nat) (hm : m ≠ 0) : (clean_text v m).length ≤ m := by
  cases v with
  | pynone => exact Nat.zero_le m
  | pybool b => exact cleaned_len (py_str_of (.pybool b)) m hm
  | pyint n => exact cleaned_len (py_str_of (.pyint n)) m hm
  | pyfloat f => exact cleaned_len (py_str_of (.pyfloat f)) m hm
  | pystr s => exact cleaned_len (py_str_of (.pystr s)) m hm
  | pylist xs => exact cleaned_len (py_str_of (.pylist xs)) m hm
  | pydict kvs => exact cleaned_len (py_str_of (.pydict kvs)) m hm

/-- Cleaning is a projection: a value already produced by _clean_text is left
unchanged by a second pass with the same limit. -/
theorem clean_text_fix (v : Py) (m : Nat) :
    clean_text (.pystr (clean_text v m)) m = clean_text v m := by
  obtain ⟨ws, hws, heq⟩ := clean_text_cleaned v m
  have hlen : m ≠ 0 → (clean_text v m).length ≤ m := fun hm => clean_text_len v m hm
  rw [heq] at hlen ⊢
  show (let cleaned := strip (join_split (join_sp ws))
        if m ≠ 0 ∧ m < cleaned.length then rstrip (cleaned.take m) else cleaned) = join_sp ws
  have h1 : join_split (join_sp ws) = join_sp ws := by
    unfold join_split
    rw [words_join ws hws]
  have h2 : strip (join_sp ws) = join_sp ws := strip_join ws hws
  simp only [h1, h2]
  rw [if_neg ?_]
  intro hc
  exact absurd (hlen hc.1) (by omega)

/-- _clean_optional_text applied to its own (encoded) output is the
identity. -/
theorem clean_optional_fix (v : Py) (m : Nat) :
    clean_optional_text (opt_str (clean_optional_text v m)) m = clean_optional_text v m := by
  unfold clean_optional_text
  by_cases hc : clean_text v m = []
  · rw [if_pos hc]
    rfl
  · rw [if_neg hc]
    show (let c := clean_text (.pystr (clean_text v m)) m
          if c = [] then none else some c) = some (clean_text v m)
    simp only [clean_text_fix v m]
    rw [if_neg hc]

/-- A string is clean for limit m when a _clean_text pass returns it
unchanged. -/
def StrFix (m : Nat) (s : Str) : Prop := clean_text (.pystr s) m = s

def OptGood (m : Nat) : Option Str → Prop
  | none => True
  | some s => s ≠ [] ∧ StrFix m s

theorem clean_optional_good (v : Py) (m : Nat) : OptGood m (clean_optional_text v m) := by
  unfold clean_optional_text
  by_cases hc : clean_text v m = []
  · rw [if_pos hc]
    trivial
  · rw [if_neg hc]
    exact ⟨hc, clean_text_fix v m⟩

theorem opt_good_fix (o : Option Str) (m : Nat) (h : OptGood m o) :
    clean_optional_text (opt_str o) m = o := by
  cases o with
  | none => rfl
  | some s =>
    obtain ⟨hne, hfix⟩ := h
    show (let c := clean_text (.pystr s) m
          if c = [] then none else some c) = some s
    have hfix2 : clean_text (Py.pystr s) m = s := hfix
    show (if clean_text (Py.pystr s) m = [] then none else some (clean_text (Py.pystr s) m)) =
      some s
    rw [hfix2, if_neg hne]

theorem doc_type_of_mem (v : Py) : doc_type_of v ∈ DOC_TYPE_CHOICES := by
  unfold doc_type_of
  by_cases h : (if lower_str (clean_text v 40) = [] then "outro".data
      else lower_str (clean_text v 40)) ∈ DOC_TYPE_CHOICES
  · rw [if_pos h]
    exact h
  · rw [if_neg h]
    decide

theorem seniority_of_mem (v : Py) : seniority_of v ∈ SENIORITY_CHOICES := by
  unfold seniority_of
  by_cases h : (if lower_str (clean_text v 20) = [] then "unknown".data
      else lower_str (clean_text v 20)) ∈ SENIORITY_CHOICES
  · rw [if_pos h]
    exact h
  · rw [if_neg h]
    decide

theorem skill_level_of_mem (v : Py) : skill_level_of v ∈ SKILL_LEVEL_CHOICES := by
  unfold skill_level_of
  by_cases h : (if lower_str (clean_text v 20) = [] then "unknown".data
      else lower_str (clean_text v 20)) ∈ SKILL_LEVEL_CHOICES
  · rw [if_pos h]
    exact h
  · rw [if_neg h]
    decide

theorem doc_type_of_fix (t : Str) (ht : t ∈ DOC_TYPE_CHOICES) :
    doc_type_of (.pystr t) = t := by
  simp only [DOC_TYPE_CHOICES, List.mem_cons, List.not_mem_nil, or_false] at ht
  rcases ht with rfl | rfl | rfl | rfl | rfl | rfl | rfl | rfl <;> decide

theorem seniority_of_fix (t : Str) (ht : t ∈ SENIORITY_CHOICES) :
    seniority_of (.pystr t) = t := by
  simp only [SENIORITY_CHOICES, List.mem_cons, List.not_mem_nil, or_false] at ht
  rcases ht with rfl | rfl | rfl | rfl | rfl <;> decide

theorem skill_level_of_fix (t : Str) (ht : t ∈ SKILL_LEVEL_CHOICES) :
    skill_level_of (.pystr t) = t := by
  simp only [SKILL_LEVEL_CHOICES, List.mem_cons, List.not_mem_nil, or_false] at ht
  rcases ht with rfl | rfl | rfl | rfl <;> decide

theorem clean_int_fix (o : Option Int) (lo hi : Int) (h : opt_in_range o lo hi = true) :
    clean_int (opt_int o) lo hi = .ok o := by
  cases o with
  | none => rfl
  | some n =>
    simp only [opt_in_range, Bool.and_eq_true, decide_eq_true_eq] at h
    show (if n < lo ∨ hi < n then Except.ok none else Except.ok (some n)) =
      Except.ok (some n)
    rw [if_neg (by omega)]

theorem clean_float_fix (f : PyFloat) (h : f = PyFloat.nan ∨ pf_in_01 f = true) :
    clean_float (.pyfloat f) = .ok f := by
  show (if pf_lt f (.finite 0) then Except.ok (ε := PyErr) (PyFloat.finite 0)
        else if pf_lt (.finite 1) f then Except.ok (PyFloat.finite 1)
        else Except.ok f) = Except.ok f
  rcases h with rfl | h01
  · rfl
  · cases f with
    | finite q =>
      simp only [pf_in_01, Bool.and_eq_true, decide_eq_true_eq] at h01
      rw [if_neg (by simp only [pf_lt, decide_eq_true_eq]; exact not_lt.mpr h01.1),
        if_neg (by simp only [pf_lt, decide_eq_true_eq]; exact not_lt.mpr h01.2)]
    | inf => exact absurd h01 (by decide)
    | ninf => exact absurd h01 (by decide)
    | nan => rfl

def SkillGood (s : Skill) : Prop :=
  s.name ≠ [] ∧ StrFix 120 s.name ∧ s.level ∈ SKILL_LEVEL_CHOICES ∧
  s.evidence ≠ [] ∧ StrFix 220 s.evidence

def EduGood (e : Education) : Prop :=
  OptGood 160 e.degree ∧ OptGood 160 e.institution ∧ e.evidence ≠ [] ∧ StrFix 220 e.evidence

def KwGood (k : KeywordEvidence) : Prop :=
  k.term ≠ [] ∧ StrFix 120 k.term ∧ k.evidence ≠ [] ∧ StrFix 220 k.evidence

theorem normalize_skill_good (raw : Py) (s : Skill) (h : normalize_skill raw = some s) :
    SkillGood s := by
  cases raw with
  | pydict kvs =>
    simp only [normalize_skill] at h
    by_cases h1 : clean_text (dget kvs "name".data) 120 = []
    · rw [if_pos h1] at h
      exact absurd h (by simp)
    · rw [if_neg h1] at h
      by_cases h2 : clean_text (dget kvs "evidence".data) 220 = []
      · rw [if_pos h2] at h
        exact absurd h (by simp)
      · rw [if_neg h2] at h
        cases h
        exact ⟨h1, clean_text_fix _ _, skill_level_of_mem _, h2, clean_text_fix _ _⟩
  | pynone => exact absurd h (by simp [normalize_skill])
  | pybool b => exact absurd h (by simp [normalize_skill])
  | pyint n => exact absurd h (by simp [normalize_skill])
  | pyfloat f => exact absurd h (by simp [normalize_skill])
  | pystr s2 => exact absurd h (by simp [normalize_skill])
  | pylist xs => exact absurd h (by simp [normalize_skill])

theorem normalize_education_good (raw : Py) (e : Education)
    (h : normalize_education raw = some e) : EduGood e := by
  cases raw with
  | pydict kvs =>
    simp only [normalize_education] at h
    by_cases h1 : clean_text (dget kvs "evidence".data) 220 = []
    · rw [if_pos h1] at h
      exact absurd h (by simp)
    · rw [if_neg h1] at h
      cases h
      exact ⟨clean_optional_good _ _, clean_optional_good _ _, h1, clean_text_fix _ _⟩
  | pynone => exact absurd h (by simp [normalize_education])
  | pybool b => exact absurd h (by simp [normalize_education])
  | pyint n => exact absurd h (by simp [normalize_education])
  | pyfloat f => exact absurd h (by simp [normalize_education])
  | pystr s2 => exact absurd h (by simp [normalize_education])
  | pylist xs => exact absurd h (by simp [normalize_education])

theorem normalize_keyword_good (raw : Py) (k : KeywordEvidence)
    (h : normalize_keyword_evidence raw = some k) : KwGood k := by
  cases raw with
  | pydict kvs =>
    simp only [normalize_keyword_evidence] at h
    by_cases h1 : clean_text (dget kvs "term".data) 120 = [] ∨
        clean_text (dget kvs "evidence".data) 220 = []
    · rw [if_pos h1] at h
      exact absurd h (by simp)
    · rw [if_neg h1] at h
      cases h
      push_neg at h1
      exact ⟨h1.1, clean_text_fix _ _, h1.2, clean_text_fix _ _⟩
  | pynone => exact absurd h (by simp [normalize_keyword_evidence])
  | pybool b => exact absurd h (by simp [normalize_keyword_evidence])
  | pyint n => exact absurd h (by simp [normalize_keyword_evidence])
  | pyfloat f => exact absurd h (by simp [normalize_keyword_evidence])
  | pystr s2 => exact absurd h (by simp [normalize_keyword_evidence])
  | pylist xs => exact absurd h (by simp [normalize_keyword_evidence])

theorem normalize_skill_fix (s : Skill) (h : SkillGood s) :
    normalize_skill (skill_to_py s) = some s := by
  obtain ⟨hne, hnf, hlev, hee, hef⟩ := h
  show (if clean_text (.pystr s.name) 120 = [] then none
        else if clean_text (.pystr s.evidence) 220 = [] then none
        else some ⟨clean_text (.pystr s.name) 120, skill_level_of (.pystr s.level),
          clean_text (.pystr s.evidence) 220⟩) = some s
  rw [hnf, hef]
  rw [if_neg hne, if_neg hee, skill_level_of_fix s.level hlev]

theorem normalize_education_fix (e : Education) (h : EduGood e) :
    normalize_education (education_to_py e) = some e := by
  obtain ⟨hdeg, hinst, hee, hef⟩ := h
  show (if clean_text (.pystr e.evidence) 220 = [] then none
        else some ⟨clean_optional_text (opt_str e.degree) 160,
          clean_optional_text (opt_str e.institution) 160,
          clean_text (.pystr e.evidence) 220⟩) = some e
  rw [hef]
  rw [if_neg hee, opt_good_fix _ _ hdeg, opt_good_fix _ _ hinst]

theorem normalize_keyword_fix (k : KeywordEvidence) (h : KwGood k) :
    normalize_keyword_evidence (keyword_to_py k) = some k := by
  obtain ⟨htne, htf, hee, hef⟩ := h
  show (if clean_text (.pystr k.term) 120 = [] ∨ clean_text (.pystr k.evidence) 220 = []
        then none
        else some ⟨clean_text (.pystr k.term) 120, clean_text (.pystr k.evidence) 220⟩) =
      some k
  rw [htf, hef]
  rw [if_neg (by push_neg; exact ⟨htne, hee⟩)]

theorem collect_capped_fix {α : Type} (f : Py → Option α) (g : α → Py) (cap : Nat) :
    ∀ (items : List α) (acc : List α),
      (∀ x ∈ items, f (g x) = some x) →
      acc.length + items.length ≤ cap →
      collect_capped f cap (items.map g) acc = acc ++ items := by
  intro items
  induction items with
  | nil => intro acc _ _; simp [collect_capped]
  | cons x rest ih =>
    intro acc hf hlen
    show collect_capped f cap (g x :: rest.map g) acc = _
    simp only [collect_capped]
    rw [hf x (by simp)]
    simp only
    by_cases h3 : cap ≤ (acc ++ [x]).length
    · rw [if_pos h3]
      have hrest : rest = [] := by
        rw [← List.length_eq_zero]
        simp only [List.length_append, List.length_cons, List.length_nil] at h3 hlen
        omega
      rw [hrest]
    · rw [if_neg h3]
      have hstep := ih (acc ++ [x]) (fun y hy => hf y (by simp [hy])) (by
        simp only [List.length_append, List.length_cons, List.length_nil] at hlen ⊢
        omega)
      rw [hstep]
      simp

/-- The invariants of a _clean_list output: every entry non-empty and clean,
entries pairwise distinct case-insensitively, count within the cap. -/
def ListGood (mi ml : Nat) (os : List Str) : Prop :=
  (∀ o ∈ os, o ≠ [] ∧ StrFix ml o) ∧
  os.Pairwise (fun a b => lower_str a ≠ lower_str b) ∧
  os.length ≤ mi

theorem clean_list_go_out (mi ml : Nat) :
    ∀ (raws : List Py) (seen acc : List Str),
      (∀ o ∈ acc, (o ≠ [] ∧ StrFix ml o) ∧ lower_str o ∈ seen) →
      acc.Pairwise (fun a b => lower_str a ≠ lower_str b) →
      (∀ o ∈ clean_list_go mi ml raws seen acc, o ≠ [] ∧ StrFix ml o) ∧
      (clean_list_go mi ml raws seen acc).Pairwise (fun a b => lower_str a ≠ lower_str b) := by
  intro raws
  induction raws with
  | nil =>
    intro seen acc hacc hpw
    exact ⟨fun o ho => (hacc o ho).1, hpw⟩
  | cons raw rest ih =>
    intro seen acc hacc hpw
    simp only [clean_list_go]
    by_cases h1 : clean_text raw ml = []
    · rw [if_pos h1]
      exact ih seen acc hacc hpw
    · rw [if_neg h1]
      by_cases h2 : lower_str (clean_text raw ml) ∈ seen
      · rw [if_pos h2]
        exact ih seen acc hacc hpw
      · rw [if_neg h2]
        have hnew : clean_text raw ml ≠ [] ∧ StrFix ml (clean_text raw ml) :=
          ⟨h1, clean_text_fix raw ml⟩
        have hpw2 : (acc ++ [clean_text raw ml]).Pairwise
            (fun a b => lower_str a ≠ lower_str b) := by
          rw [List.pairwise_append]
          refine ⟨hpw, List.pairwise_singleton _ _, ?_⟩
          intro a ha b hb
          rw [List.mem_singleton] at hb
          subst hb
          intro hEq
          exact h2 (hEq ▸ (hacc a ha).2)
        by_cases h3 : mi ≤ (acc ++ [clean_text raw ml]).length
        · rw [if_pos h3]
          refine ⟨?_, hpw2⟩
          intro o ho
          rcases List.mem_append.mp ho with ho2 | ho2
          · exact (hacc o ho2).1
          · rw [List.mem_singleton] at ho2
            subst ho2
            exact hnew
        · rw [if_neg h3]
          refine ih (lower_str (clean_text raw ml) :: seen) (acc ++ [clean_text raw ml]) ?_ hpw2
          intro o ho
          rcases List.mem_append.mp ho with ho2 | ho2
          · exact ⟨(hacc o ho2).1, List.mem_cons_of_mem _ (hacc o ho2).2⟩
          · rw [List.mem_singleton] at ho2
            subst ho2
            exact ⟨hnew, List.mem_cons_self _ _⟩

theorem clean_list_good (v : Py) (mi ml : Nat) (hmi : 0 < mi) :
    ListGood mi ml (clean_list v mi ml) := by
  have hlen := clean_list_length v mi ml hmi
  cases v with
  | pylist xs =>
    have hout := clean_list_go_out mi ml xs [] []
      (fun o ho => absurd ho (List.not_mem_nil o)) List.Pairwise.nil
    exact ⟨hout.1, hout.2, hlen⟩
  | pynone => exact ⟨fun o ho => absurd ho (List.not_mem_nil o), List.Pairwise.nil, hlen⟩
  | pybool b => exact ⟨fun o ho => absurd ho (List.not_mem_nil o), List.Pairwise.nil, hlen⟩
  | pyint n => exact ⟨fun o ho => absurd ho (List.not_mem_nil o), List.Pairwise.nil, hlen⟩
  | pyfloat f => exact ⟨fun o ho => absurd ho (List.not_mem_nil o), List.Pairwise.nil, hlen⟩
  | pystr s => exact ⟨fun o ho => absurd ho (List.not_mem_nil o), List.Pairwise.nil, hlen⟩
  | pydict kvs => exact ⟨fun o ho => absurd ho (List.not_mem_nil o), List.Pairwise.nil, hlen⟩

theorem clean_list_go_fix (mi ml : Nat) :
    ∀ (os seen acc : List Str),
      (∀ o ∈ os, o ≠ [] ∧ StrFix ml o) →
      (∀ o ∈ os, lower_str o ∉ seen) →
      os.Pairwise (fun a b => lower_str a ≠ lower_str b) →
      acc.length + os.length ≤ mi →
      clean_list_go mi ml (os.map .pystr) seen acc = acc ++ os := by
  intro os
  induction os with
  | nil =>
    intro seen acc _ _ _ _
    simp [clean_list_go]
  | cons o os2 ih =>
    intro seen acc hgood hseen hpw hlen
    have ho := hgood o (by simp)
    have hofix : clean_text (Py.pystr o) ml = o := ho.2
    show clean_list_go mi ml (Py.pystr o :: os2.map .pystr) seen acc = acc ++ o :: os2
    simp only [clean_list_go]
    rw [hofix]
    rw [if_neg ho.1, if_neg (hseen o (by simp))]
    by_cases h3 : mi ≤ (acc ++ [o]).length
    · rw [if_pos h3]
      have hos2 : os2 = [] := by
        rw [← List.length_eq_zero]
        simp only [List.length_append, List.length_cons, List.length_nil] at h3 hlen
        omega
      rw [hos2]
    · rw [if_neg h3]
      have hstep := ih (lower_str o :: seen) (acc ++ [o])
        (fun x hx => hgood x (by simp [hx]))
        (by
          intro x hx
          rw [List.mem_cons]
          push_neg
          refine ⟨?_, hseen x (by simp [hx])⟩
          intro hEq
          exact ((List.pairwise_cons.mp hpw).1 x hx) hEq.symm)
        (List.pairwise_cons.mp hpw).2
        (by
          simp only [List.length_append, List.length_cons, List.length_nil] at hlen ⊢
          omega)
      rw [hstep]
      simp

theorem clean_list_fix (os : List Str) (mi ml : Nat) (h : ListGood mi ml os) :
    clean_list (.pylist (os.map .pystr)) mi ml = os := by
  obtain ⟨hgood, hpw, hlen⟩ := h
  show clean_list_go mi ml (os.map .pystr) [] [] = os
  have := clean_list_go_fix mi ml os [] [] hgood
    (fun o _ => List.not_mem_nil _) hpw (by simpa using hlen)
  simpa using this

/-- The invariants every successful normalize_ai_payload output satisfies;
together they make the output a fixed point of a second pass. -/
structure ExtractionGood (x : NormalizedExtraction) : Prop where
  doc_type_mem : x.doc_type ∈ DOC_TYPE_CHOICES
  name_good : OptGood 160 x.person.name
  emails_good : ListGood 10 120 x.person.emails
  phones_good : ListGood 10 32 x.person.phones
  location_good : OptGood 160 x.person.location
  age_range : opt_in_range x.person.age_estimate_years 0 120 = true
  age_ev_good : OptGood 220 x.person.age_evidence
  years_range : opt_in_range x.experience.years_estimate 0 60 = true
  years_ev_good : OptGood 220 x.experience.years_evidence
  seniority_mem : x.experience.seniority ∈ SENIORITY_CHOICES
  roles_good : ListGood 20 120 x.experience.roles
  companies_good : ListGood 20 120 x.experience.companies
  skills_good : ∀ s ∈ x.skills, SkillGood s
  skills_len : x.skills.length ≤ 30
  education_good : ∀ e ∈ x.education, EduGood e
  education_len : x.education.length ≤ 20
  keywords_good : ∀ k ∈ x.keywords_evidence, KwGood k
  keywords_len : x.keywords_evidence.length ≤ 40
  confidence_ok : x.confidence_overall = PyFloat.nan ∨ pf_in_01 x.confidence_overall = true

theorem normalize_good (payload : Py) (out : NormalizedExtraction)
    (h : normalize_ai_payload payload = .ok out) : ExtractionGood out := by
  simp only [normalize_ai_payload] at h
  cases hage : clean_int (dget (as_dict (dget (as_dict payload) "person".data))
      "age_estimate_years".data) 0 120 with
  | error e => rw [hage] at h; exact Except.noConfusion h
  | ok age =>
    rw [hage] at h
    cases hyears : clean_int (dget (as_dict (dget (as_dict payload) "experience".data))
        "years_estimate".data) 0 60 with
    | error e => rw [hyears] at h; exact Except.noConfusion h
    | ok years =>
      rw [hyears] at h
      cases hoverall : clean_float (dget (as_dict (dget (as_dict payload) "confidence".data))
          "overall".data) with
      | error e => rw [hoverall] at h; exact Except.noConfusion h
      | ok overall =>
        rw [hoverall] at h
        cases h
        exact
          { doc_type_mem := doc_type_of_mem _
            name_good := clean_optional_good _ _
            emails_good := clean_list_good _ _ _ (by omega)
            phones_good := clean_list_good _ _ _ (by omega)
            location_good := clean_optional_good _ _
            age_range := clean_int_ok _ _ _ _ hage
            age_ev_good := clean_optional_good _ _
            years_range := clean_int_ok _ _ _ _ hyears
            years_ev_good := clean_optional_good _ _
            seniority_mem := seniority_of_mem _
            roles_good := clean_list_good _ _ _ (by omega)
            companies_good := clean_list_good _ _ _ (by omega)
            skills_good := collect_capped_mem _ _ _ normalize_skill_good _ [] (by simp)
            skills_len := collect_capped_length _ _ _ _ (by simp)
            education_good := collect_capped_mem _ _ _ normalize_education_good _ [] (by simp)
            education_len := collect_capped_length _ _ _ _ (by simp)
            keywords_good := collect_capped_mem _ _ _ normalize_keyword_good _ [] (by simp)
            keywords_len := collect_capped_length _ _ _ _ (by simp)
            confidence_ok := clean_float_ok _ _ hoverall }

theorem normalize_of_good (x : NormalizedExtraction) (hg : ExtractionGood x) :
    normalize_ai_payload (extraction_to_py x) = .ok x := by
  have hdt : doc_type_of (dget (as_dict (extraction_to_py x)) "doc_type".data) = x.doc_type := by
    have h0 : dget (as_dict (extraction_to_py x)) "doc_type".data = .pystr x.doc_type := rfl
    rw [h0]
    exact doc_type_of_fix _ hg.doc_type_mem
  have hsen : seniority_of (dget (as_dict (dget (as_dict (extraction_to_py x))
      "experience".data)) "seniority".data) = x.experience.seniority := by
    have h0 : dget (as_dict (dget (as_dict (extraction_to_py x)) "experience".data))
        "seniority".data = .pystr x.experience.seniority := rfl
    rw [h0]
    exact seniority_of_fix _ hg.seniority_mem
  have hskills : collect_capped normalize_skill 30
      (as_list (dget (as_dict (extraction_to_py x)) "skills".data)) [] = x.skills := by
    have h0 : as_list (dget (as_dict (extraction_to_py x)) "skills".data) =
        x.skills.map skill_to_py := rfl
    rw [h0]
    exact collect_capped_fix _ _ _ x.skills []
      (fun s hs => normalize_skill_fix s (hg.skills_good s hs))
      (by simpa using hg.skills_len)
  have hedu : collect_capped normalize_education 20
      (as_list (dget (as_dict (extraction_to_py x)) "education".data)) [] = x.education := by
    have h0 : as_list (dget (as_dict (extraction_to_py x)) "education".data) =
        x.education.map education_to_py := rfl
    rw [h0]
    exact collect_capped_fix _ _ _ x.education []
      (fun e he => normalize_education_fix e (hg.education_good e he))
      (by simpa using hg.education_len)
  have hkw : collect_capped normalize_keyword_evidence 40
      (as_list (dget (as_dict (extraction_to_py x)) "keywords_evidence".data)) [] =
        x.keywords_evidence := by
    have h0 : as_list (dget (as_dict (extraction_to_py x)) "keywords_evidence".data) =
        x.keywords_evidence.map keyword_to_py := rfl
    rw [h0]
    exact collect_capped_fix _ _ _ x.keywords_evidence []
      (fun k hk => normalize_keyword_fix k (hg.keywords_good k hk))
      (by simpa using hg.keywords_len)
  have hage : clean_int (dget (as_dict (dget (as_dict (extraction_to_py x)) "person".data))
      "age_estimate_years".data) 0 120 = .ok x.person.age_estimate_years := by
    have h0 : dget (as_dict (dget (as_dict (extraction_to_py x)) "person".data))
        "age_estimate_years".data = opt_int x.person.age_estimate_years := rfl
    rw [h0]
    exact clean_int_fix _ _ _ hg.age_range
  have hyears : clean_int (dget (as_dict (dget (as_dict (extraction_to_py x))
      "experience".data)) "years_estimate".data) 0 60 = .ok x.experience.years_estimate := by
    have h0 : dget (as_dict (dget (as_dict (extraction_to_py x)) "experience".data))
        "years_estimate".data = opt_int x.experience.years_estimate := rfl
    rw [h0]
    exact clean_int_fix _ _ _ hg.years_range
  have hoverall : clean_float (dget (as_dict (dget (as_dict (extraction_to_py x))
      "confidence".data)) "overall".data) = .ok x.confidence_overall := by
    have h0 : dget (as_dict (dget (as_dict (extraction_to_py x)) "confidence".data))
        "overall".data = .pyfloat x.confidence_overall := rfl
    rw [h0]
    exact clean_float_fix _ hg.confidence_ok
  have hname : clean_optional_text (dget (as_dict (dget (as_dict (extraction_to_py x))
      "person".data)) "name".data) 160 = x.person.name := by
    have h0 : dget (as_dict (dget (as_dict (extraction_to_py x)) "person".data))
        "name".data = opt_str x.person.name := rfl
    rw [h0]
    exact opt_good_fix _ _ hg.name_good
  have hloc : clean_optional_text (dget (as_dict (dget (as_dict (extraction_to_py x))
      "person".data)) "location".data) 160 = x.person.location := by
    have h0 : dget (as_dict (dget (as_dict (extraction_to_py x)) "person".data))
        "location".data = opt_str x.person.location := rfl
    rw [h0]
    exact opt_good_fix _ _ hg.location_good
  have haev : clean_optional_text (dget (as_dict (dget (as_dict (extraction_to_py x))
      "person".data)) "age_evidence".data) 220 = x.person.age_evidence := by
    have h0 : dget (as_dict (dget (as_dict (extraction_to_py x)) "person".data))
        "age_evidence".data = opt_str x.person.age_evidence := rfl
    rw [h0]
    exact opt_good_fix _ _ hg.age_ev_good
  have hyev : clean_optional_text (dget (as_dict (dget (as_dict (extraction_to_py x))
      "experience".data)) "years_evidence".data) 220 = x.experience.years_evidence := by
    have h0 : dget (as_dict (dget (as_dict (extraction_to_py x)) "experience".data))
        "years_evidence".data = opt_str x.experience.years_evidence := rfl
    rw [h0]
    exact opt_good_fix _ _ hg.years_ev_good
  have hemails : clean_list (dget (as_dict (dget (as_dict (extraction_to_py x))
      "person".data)) "emails".data) 10 120 = x.person.emails := by
    have h0 : dget (as_dict (dget (as_dict (extraction_to_py x)) "person".data))
        "emails".data = .pylist (x.person.emails.map .pystr) := rfl
    rw [h0]
    exact clean_list_fix _ _ _ hg.emails_good
  have hphones : clean_list (dget (as_dict (dget (as_dict (extraction_to_py x))
      "person".data)) "phones".data) 10 32 = x.person.phones := by
    have h0 : dget (as_dict (dget (as_dict (extraction_to_py x)) "person".data))
        "phones".data = .pylist (x.person.phones.map .pystr) := rfl
    rw [h0]
    exact clean_list_fix _ _ _ hg.phones_good
  have hroles : clean_list (dget (as_dict (dget (as_dict (extraction_to_py x))
      "experience".data)) "roles".data) 20 120 = x.experience.roles := by
    have h0 : dget (as_dict (dget (as_dict (extraction_to_py x)) "experience".data))
        "roles".data = .pylist (x.experience.roles.map .pystr) := rfl
    rw [h0]
    exact clean_list_fix _ _ _ hg.roles_good
  have hcomp : clean_list (dget (as_dict (dget (as_dict (extraction_to_py x))
      "experience".data)) "companies".data) 20 120 = x.experience.companies := by
    have h0 : dget (as_dict (dget (as_dict (extraction_to_py x)) "experience".data))
        "companies".data = .pylist (x.experience.companies.map .pystr) := rfl
    rw [h0]
    exact clean_list_fix _ _ _ hg.companies_good
  simp only [normalize_ai_payload]
  rw [hdt, hsen, hskills, hedu, hkw, hage, hyears, hoverall, hname, hloc, haev, hyev,
    hemails, hphones, hroles, hcomp]

/- ## Claim C5 -/

/-- Claim C5: normalize_ai_payload is idempotent.  Whenever a pass succeeds
(no OverflowError escapes, see claim C4), running the normalizer on the
dict it returned yields the very same normalized payload, so every
already-normalized payload is a fixed point. -/
theorem c5_idempotent (x : Py) (out : NormalizedExtraction)
    (h : normalize_ai_payload x = .ok out) :
    normalize_ai_payload (extraction_to_py out) = .ok out :=
  normalize_of_good out (normalize_good x out h)

theorem c5_witness :
    normalize_ai_payload (extraction_to_py
      { doc_type := "outro".data,
        person := { name := none, emails := [], phones := [], location := none,
                    age_estimate_years := none, age_evidence := none },
        experience := { years_estimate := none, years_evidence := none,
                        seniority := "unknown".data, roles := [], companies := [] },
        skills := [], education := [], keywords_evidence := [],
        confidence_overall := PyFloat.finite 0 }) = .ok
      { doc_type := "outro".data,
        person := { name := none, emails := [], phones := [], location := none,
                    age_estimate_years := none, age_evidence := none },
        experience := { years_estimate := none, years_evidence := none,
                        seniority := "unknown".data, roles := [], companies := [] },
        skills := [], education := [], keywords_evidence := [],
        confidence_overall := PyFloat.finite 0 } :=
  c5_idempotent Py.pynone
    { doc_type := "outro".data,
      person := { name := none, emails := [], phones := [], location := none,
                  age_estimate_years := none, age_evidence := none },
      experience := { years_estimate := none, years_evidence := none,
                      seniority := "unknown".data, roles := [], companies := [] },
      skills := [], education := [], keywords_evidence := [],
      confidence_overall := PyFloat.finite 0 } rfl

end DocAnalysis
